import Mathlib

/-!
# GcXmlValidator: resolution of engine errors to lines of the camera XML file

Shallow embedding of `Validator/GcXmlValidator.cpp`.

Modelling conventions.

* A `std::string` is the list of its `char`s (`Str`); a `const char *` argument is the list
  of the characters before its terminating NUL.
* A search result of type `size_t` is an `Option Nat`, `none` standing for `std::string::npos`.
  The only arithmetic the program does on a possible `npos` is `n + 1`, which wraps to `0`
  (`succPos`).
* A call that does not return normally is `none`: `std::string::erase` throws
  `std::out_of_range` when its position lies beyond the end of the string, and the bounded
  rendering of the comment-stripping `while` gives `none` when its bound is used up. The
  theorems of this file show that neither ever happens.
* The file system is a function from file names to the text an `ifstream` opened on that
  name would deliver, `none` when the file cannot be opened.
* The line counter `i` of `GetLineNumbers` is a C++ `int` whose overflow is undefined; the
  model counts in `Nat`, which is exact for every file of fewer than `2^31` lines.
-/

namespace GcXmlValidator

/-- Contents of a `std::string`, one `Char` per C++ `char`. -/
abbrev Str := List Char

/-- Text delivered by `ifstream(fileName)`, or `none` when the stream fails to open. -/
abbrev FileSystem := Str → Option Str

/-! ## `std::string` primitives -/

/-- Scan behind `std::string::find`: `i` is the index of the head of the remaining text. -/
def findAux (pat : Str) : Str → Nat → Option Nat
  | [], i => if pat.isEmpty then some i else none
  | c :: cs, i => if pat.isPrefixOf (c :: cs) then some i else findAux pat cs (i + 1)

/-- Call `s.find(pat, pos)`: index of the first occurrence of `pat` at or after `pos`. -/
def findFrom (s pat : Str) (pos : Nat) : Option Nat :=
  if s.length < pos then none else findAux pat (s.drop pos) pos

/-- Call `s.find(pat)`. -/
def find (s pat : Str) : Option Nat := findFrom s pat 0

/-- Value of `n + 1` in `size_t` for a search result `n`: `npos + 1` wraps around to `0`. -/
def succPos : Option Nat → Nat
  | none => 0
  | some n => n + 1

/-- Call `s.erase(pos, count)`, `count = none` being `npos`: throws (`none`) when
`pos > s.size()`, otherwise removes `min(count, s.size() - pos)` characters from `pos` on. -/
def erase (s : Str) (pos : Nat) (count : Option Nat) : Option Str :=
  if s.length < pos then none
  else
    match count with
    | none => some (s.take pos)
    | some n => some (s.take pos ++ s.drop (pos + n))

/-- Result of `std::to_string` on an unsigned number: its decimal digits. -/
def to_string (n : Nat) : Str := Nat.toDigits 10 n

/-! ## Reading the file line by line -/

/-- Lines delivered by successive `getline(infl, strLine)` calls on the remaining text `text`,
`cur` being the characters of the current line read so far. A line ends at `'\n'` (which is
dropped) or at the end of the text; at the end of the text with nothing read `getline` fails. -/
def getlinesAux : Str → Str → List Str
  | [], cur => if cur.isEmpty then [] else [cur]
  | c :: rest, cur => if c = '\n' then cur :: getlinesAux rest [] else getlinesAux rest (cur ++ [c])

/-- Lines of a text as the `while (getline(infl, strLine))` loop sees them. -/
def getlines (text : Str) : List Str := getlinesAux text []

/-- Lines the loop of `GetLineNumbers` iterates over: none when the file cannot be opened. -/
def fileLines (fs : FileSystem) (fileName : Str) : List Str :=
  match fs fileName with
  | none => []
  | some text => getlines text

/-! ## `GetLineNumbers` -/

/-- The comment-open marker. -/
def commentOpen : Str := "<!--".toList

/-- The comment-close marker. -/
def commentClose : Str := "-->".toList

/-- Body of the `while` of lines 317-331, one pass: `rem1`, `rem2` are the positions of the
first `<!--` and the first `-->`, not both `npos`. Gives the line and the flag after the pass. -/
def stripPass (strLine : Str) (comment : Bool) : Option Nat → Option Nat → Option (Str × Bool)
  | some rem1, rem2 =>
    match erase strLine rem1 (rem2.map (fun r => r + 3)) with
    | none => none
    | some s => some (s, rem2.isNone)
  | none, some rem2 =>
    match erase strLine 0 (some (rem2 + 3)) with
    | none => none
    | some s => some (s, false)
  | none, none => some (strLine, comment)

/-- The `while (rem1 != npos || rem2 != npos)` loop of lines 315-331, run for at most `fuel`
passes; `none` when the bound is used up with a marker still in the line. -/
def stripLoop : Nat → Str → Bool → Option (Str × Bool)
  | fuel, strLine, comment =>
    match find strLine commentOpen, find strLine commentClose with
    | none, none => some (strLine, comment)
    | rem1, rem2 =>
      match fuel with
      | 0 => none
      | fuel + 1 =>
        match stripPass strLine comment rem1 rem2 with
        | none => none
        | some (s, c) => stripLoop fuel s c

/-- Comment stripping of one line (lines 315-331): every pass shortens the line, so its
length bounds the number of passes. -/
def stripComments (strLine : Str) (comment : Bool) : Option (Str × Bool) :=
  stripLoop strLine.length strLine comment

/-- The `while (getline(...))` loop of lines 312-340 over the remaining lines, with the
loop state `i`, `comment`, `found`, `lines`. -/
def scanLines (strFind : Str) :
    List Str → Nat → Bool → Bool → List Nat → Option (Bool × List Nat)
  | [], _, _, found, lines => some (found, lines)
  | strLine :: rest, i, comment, found, lines =>
    match stripComments strLine comment with
    | none => none
    | some (s, c) =>
      if (!c) && (find s strFind).isSome then
        scanLines strFind rest (i + 1) c true (lines ++ [i + 1])
      else
        scanLines strFind rest (i + 1) c found lines

/-- `GetLineNumbers(fileName, strFind, lines)`: the returned `bool` and the final contents
of the vector `lines`. -/
def GetLineNumbers (fs : FileSystem) (fileName strFind : Str) (lines : List Nat) :
    Option (Bool × List Nat) :=
  scanLines strFind (fileLines fs fileName) 0 false false lines

/-! ## `FindXmlErrorLineStr` and `FindSwissKnifeErrorLineStr` -/

/-- The single quote character. -/
def quoteChar : Char := Char.ofNat 39

/-- The space character. -/
def spaceChar : Char := Char.ofNat 32

/-- The string literal used for the quote searches, a single quote. -/
def quoteStr : Str := "'".toList

/-- Reference strings of type 1 (lines 159-161). -/
def strRef1 : List Str :=
  ["Error while parsing XML stream at line ".toList,
   "XML Parse error at line ".toList]

/-- Reference strings of type 2 (lines 163-169). -/
def strRef2 : List Str :=
  ["Error in XML stream : dangling node reference ".toList,
   "Fatal error : Dangling node referenc e".toList,
   "Found a duplicate node".toList,
   "Merge conflict with node ".toList,
   "Node ".toList]

/-- Reference string of type 3 (line 222). -/
def strRef3 : Str := "Error in property of type ".toList

/-- Reference string of `FindSwissKnifeErrorLineStr` (line 271). -/
def strRefSwissKnife : Str := "Error while parsing equation for node ".toList

/-- How a dialect loop of `FindXmlErrorLineStr` ends: with a `return` of the line string, or
by running to its end, leaving `strDesc` as the loop changed it. -/
inductive LoopExit where
  | returned (strLineN : Str)
  | fellThrough (strDesc : Str)
  deriving DecidableEq

/-- The loop over `strRef1` (lines 174-192) on the remaining reference strings. -/
def type1Loop : List Str → Str → Option LoopExit
  | [], strDesc => some (LoopExit.fellThrough strDesc)
  | istr :: rest, strDesc =>
    match find strDesc istr with
    | none => type1Loop rest strDesc
    | some _ =>
      match erase strDesc 0 (some istr.length) with
      | none => none
      | some strDesc1 =>
        match find strDesc1 " ".toList with
        | none => type1Loop rest strDesc1
        | some idx =>
          match erase strDesc1 idx none with
          | none => none
          | some strDesc2 => some (LoopExit.returned strDesc2)

/-- The loop over `strRef2` (lines 195-219) on the remaining reference strings. -/
def type2Loop (fs : FileSystem) (fileName : Str) : List Str → Str → Option LoopExit
  | [], strDesc => some (LoopExit.fellThrough strDesc)
  | istr :: rest, strDesc =>
    match find strDesc istr with
    | none => type2Loop fs fileName rest strDesc
    | some _ =>
      match find strDesc quoteStr, findFrom strDesc quoteStr (succPos (find strDesc quoteStr)) with
      | some n1, some n2 =>
        if n1 < n2 then
          match erase strDesc 0 (some (n1 + 1)) with
          | none => none
          | some strDesc1 =>
            match erase strDesc1 (n2 - n1 - 1) none with
            | none => none
            | some strDesc2 =>
              match GetLineNumbers fs fileName strDesc2 [] with
              | none => none
              | some (true, l :: _) => some (LoopExit.returned (to_string l))
              | some _ => type2Loop fs fileName rest strDesc2
        else type2Loop fs fileName rest strDesc
      | _, _ => type2Loop fs fileName rest strDesc

/-- The type 3 block (lines 222-258) on the description the loops left: `some (some s)` when
it returns `s`, `some none` when control reaches the final `return strLineN`. -/
def type3 (fs : FileSystem) (fileName strDesc : Str) : Option (Option Str) :=
  match find strDesc strRef3 with
  | none => some none
  | some _ =>
    let n1 := find strDesc quoteStr
    let n2 := findFrom strDesc quoteStr (succPos n1)
    let n3 := findFrom strDesc quoteStr (succPos n2)
    let n4 := findFrom strDesc quoteStr (succPos n3)
    match n1, n2, n3, n4 with
    | some n1, some n2, some n3, some n4 =>
      if n1 < n2 ∧ n2 < n3 ∧ n3 < n4 then
        match erase strDesc 0 (some (n1 + 1)) with
        | none => none
        | some t11a =>
          match erase t11a (n2 - n1 - 1) none with
          | none => none
          | some t11b =>
            match erase strDesc 0 (some (n3 + 1)) with
            | none => none
            | some t12a =>
              match erase t12a (n4 - n3 - 1) none with
              | none => none
              | some t12b =>
                match GetLineNumbers fs fileName (t11b ++ ">".toList ++ t12b) [] with
                | none => none
                | some (true, l :: _) => some (some (to_string l))
                | some _ => some none
      else some none
    | _, _, _, _ => some none

/-- `FindXmlErrorLineStr(ex, fileName)`, `exDescription` being `ex.GetDescription()`, the
only part of the exception the function reads to decide its result. -/
def FindXmlErrorLineStr (fs : FileSystem) (exDescription fileName : Str) : Option Str :=
  match type1Loop strRef1 exDescription with
  | none => none
  | some (LoopExit.returned strLineN) => some strLineN
  | some (LoopExit.fellThrough strDesc1) =>
    match type2Loop fs fileName strRef2 strDesc1 with
    | none => none
    | some (LoopExit.returned strLineN) => some strLineN
    | some (LoopExit.fellThrough strDesc2) =>
      match type3 fs fileName strDesc2 with
      | none => none
      | some (some strLineN) => some strLineN
      | some none => some "1".toList

/-- `FindSwissKnifeErrorLineStr(fileName, strError)`. -/
def FindSwissKnifeErrorLineStr (fs : FileSystem) (fileName strError : Str) : Option Str :=
  match find strError strRefSwissKnife with
  | none => some "1".toList
  | some _ =>
    match find strError quoteStr, findFrom strError quoteStr (succPos (find strError quoteStr)) with
    | some n1, some n2 =>
      if n1 < n2 then
        match erase strError 0 (some (n1 + 1)) with
        | none => none
        | some strDesc1 =>
          match erase strDesc1 (n2 - n1 - 1) none with
          | none => none
          | some strDesc2 =>
            match GetLineNumbers fs fileName strDesc2 [] with
            | none => none
            | some (true, l :: _) => some (to_string l)
            | some _ => some "1".toList
      else some "1".toList
    | _, _ => some "1".toList

/-! ## `main` -/

/-- What the engine does on the file: `_LoadXMLFromFile` and `_ParseSwissKnifes` both return,
the latter filling `strErrors`; or one of them throws a `GenericException` with the given
`GetDescription()` and `what()`; or one of them throws something else. -/
inductive EngineOutcome where
  | loaded (strErrors : List Str)
  | genericException (description what : Str)
  | otherException

/-- The four version strings `GENICAM_VERSION_*_STR` of the engine's headers. -/
structure Version where
  major : Str
  minor : Str
  subminor : Str
  build : Str

/-- What a run leaves behind: the text `main` writes to `std::cout` directly (usage, warning),
the text it writes through `outStream`, whether `outStream` is the output file (otherwise it
is `std::cout`), and the value `main` returns. -/
structure RunResult where
  cout : Str
  outStream : Str
  toFile : Bool
  retError : Nat
  deriving DecidableEq

/-- Write `text` to `outStream`. -/
def emit (r : RunResult) (text : Str) : RunResult :=
  ⟨r.cout, r.outStream ++ text, r.toFile, r.retError⟩

/-- Assignment `retError = code`. -/
def setRet (r : RunResult) (code : Nat) : RunResult := ⟨r.cout, r.outStream, r.toFile, code⟩

/-- Output line of one expression error (line 87). -/
def swissKnifeLine (strFile strErr strFormulaErr : Str) : Str :=
  strFile ++ "(".toList ++ strErr ++ "): error ParseSwissKnifes: ".toList ++ strFormulaErr
    ++ "\n".toList

/-- Output line of a `GenericException` (line 101). -/
def genericLine (strFile strLineNum strWhat : Str) : Str :=
  strFile ++ "(".toList ++ strLineNum ++ "): error GenericException: ".toList ++ strWhat
    ++ "\n".toList

/-- Output line of the `catch (...)` handler (line 107). -/
def unknownLine (strFile : Str) : Str :=
  strFile ++ "(1): error Unknown: ".toList ++ "Unknown, LoadXMLFromFile() failed\n".toList

/-- Output line of a successful validation (lines 114-118). -/
def successLine (ver : Version) (strFile : Str) : Str :=
  strFile ++ " successfully validated by Gen<i>Cam Version ".toList
    ++ ver.major ++ ".".toList ++ ver.minor ++ ".".toList ++ ver.subminor ++ ".".toList
    ++ ver.build ++ "\n".toList

/-- The `for (auto iErr : strErrors)` loop of lines 78-89 on the remaining errors. The flag
of the result says whether an exception left the loop (to be caught by `catch (...)`). -/
def reportSwissKnifes (fs : FileSystem) (strFile : Str) : List Str → RunResult → RunResult × Bool
  | [], r => (r, false)
  | iErr :: rest, r =>
    match FindSwissKnifeErrorLineStr fs strFile iErr with
    | none => (r, true)
    | some strErr =>
      reportSwissKnifes fs strFile rest (setRet (emit r (swissKnifeLine strFile strErr iErr)) 2)

/-- The `try` statement of lines 70-109 for the given outcome of the engine; `none` when an
exception leaves the `GenericException` handler, and with it `main`. -/
def tryBlock (fs : FileSystem) (strFile : Str) (r : RunResult) : EngineOutcome → Option RunResult
  | EngineOutcome.loaded strErrors =>
    match reportSwissKnifes fs strFile strErrors r with
    | (r1, false) => some r1
    | (r1, true) => some (setRet (emit r1 (unknownLine strFile)) 4)
  | EngineOutcome.genericException description what =>
    match FindXmlErrorLineStr fs description strFile with
    | none => none
    | some strLineNum => some (setRet (emit r (genericLine strFile strLineNum what)) 3)
  | EngineOutcome.otherException => some (setRet (emit r (unknownLine strFile)) 4)

/-- `main(num, argc)`, `argc` being the list of the `num` arguments: `canOpenOut name` says
whether `outFile.open(name)` succeeds, `engine strFile` what the engine does on the file. -/
def main (ver : Version) (fs : FileSystem) (canOpenOut : Str → Bool)
    (engine : Str → EngineOutcome) : List Str → Option RunResult
  | _ :: strFile :: more =>
    let r0 : RunResult :=
      match more with
      | [] => ⟨[], [], false, 0⟩
      | strOutFile :: _ =>
        if canOpenOut strOutFile then ⟨[], [], true, 0⟩
        else ⟨"WARNING: can not open output_file".toList ++ strOutFile
                ++ "cout will be used\n".toList, [], false, 0⟩
    match tryBlock fs strFile r0 (engine strFile) with
    | none => none
    | some r1 => if r1.retError = 0 then some (emit r1 (successLine ver strFile)) else some r1
  | _ =>
    some ⟨"Usage: GcXmlValidator.exe cameraxml_name <output_file_name>\n".toList, [], false, 1⟩

/-- The description the engine gives a property conversion error (the format string quoted
at line 156) for the type name `T` and the property name `P`. -/
def propertyErrorDescription (T P : Str) : Str :=
  "Error in property of type '".toList ++ T ++ "': cannot convert '".toList ++ P
    ++ "' to int64_t".toList

/-- The line both resolvers take from an answer of `GetLineNumbers`: the first entry of the
vector when the call returned `true` with a non-empty vector (`found && size() > 0`). -/
def firstLine : Bool × List Nat → Option Nat
  | (true, l :: _) => some l
  | _ => none

/-- The line string a resolver returns after a call of `GetLineNumbers` that is its last
attempt: the decimal string of the first line found, the default "1" otherwise. -/
def lineStringOf (r : Bool × List Nat) : Str :=
  match firstLine r with
  | some l => to_string l
  | none => "1".toList

/-! ## The loop of `GetLineNumbers` seen line by line -/

/-- Value of the variable `comment` after the loop of lines 312-340 has processed the given
lines, `comment` being its value before them. -/
def commentAfter : List Str → Bool → Option Bool
  | [], comment => some comment
  | strLine :: rest, comment =>
    match stripComments strLine comment with
    | none => none
    | some (_, c) => commentAfter rest c

/-- The numbers the loop of lines 312-340 appends to `lines` while it processes the given
lines, `i` and `comment` being the values of these variables before them. -/
def scanNew (strFind : Str) : List Str → Nat → Bool → List Nat
  | [], _, _ => []
  | strLine :: rest, i, comment =>
    match stripComments strLine comment with
    | none => []
    | some (s, c) =>
      if (!c) && (find s strFind).isSome then (i + 1) :: scanNew strFind rest (i + 1) c
      else scanNew strFind rest (i + 1) c

/-! ## The XML comment rule -/

/-- The XML comment rule, read character by character: outside a comment a `<!--` opens one,
inside a comment the next `-->` after the open marker closes it. `inside` says whether the
text read so far ends inside a comment, `skip` how many characters of the marker just met are
still to be passed over. The result says whether the end of the text lies inside a comment. -/
def xmlScan : Str → Bool → Nat → Bool
  | [], inside, _ => inside
  | _ :: cs, inside, skip + 1 => xmlScan cs inside skip
  | c :: cs, false, 0 =>
    if commentOpen.isPrefixOf (c :: cs) then xmlScan cs true 3 else xmlScan cs false 0
  | c :: cs, true, 0 =>
    if commentClose.isPrefixOf (c :: cs) then xmlScan cs false 2 else xmlScan cs true 0

/-- The XML comment rule over the lines of a file, read in order from the state `inside`: no
marker holds a line end, so each line is read from the state the line before it left. -/
def xmlAfterLines : List Str → Bool → Bool
  | [], inside => inside
  | line :: rest, inside => xmlAfterLines rest (xmlScan line inside 0)

/-! ## Concrete inputs -/

/-- A file system in which every name opens the same text. -/
def oneFile (text : String) : FileSystem := fun _ => some text.toList

/-- A camera file whose line 10 is `<Gain>`, the name `Gain` standing on no other line. -/
def gainOnLine10 : String :=
  "<r>\n<a/>\n<b/>\n<c/>\n<d/>\n<e/>\n<f/>\n<g/>\n<h/>\n<Gain>\n</r>\n"

end GcXmlValidator

namespace GcXmlValidator

/-! ## Facts about the string primitives -/

theorem findAux_eq_none_iff (pat : Str) : ∀ (s : Str) (i : Nat),
    findAux pat s i = none ↔ ¬ pat <:+: s := by
  intro s
  induction s with
  | nil =>
    intro i
    cases pat <;> simp [findAux]
  | cons c cs ih =>
    intro i
    by_cases h : pat <+: c :: cs
    · simp [findAux, List.isPrefixOf_iff_prefix, h, h.isInfix]
    · simp [findAux, List.isPrefixOf_iff_prefix, h, ih, List.infix_cons_iff]

theorem findAux_prefix (pat s : Str) (i : Nat) (h : pat <+: s) : findAux pat s i = some i := by
  cases s with
  | nil =>
    have : pat = [] := List.prefix_nil.mp h
    simp [findAux, this]
  | cons c cs => simp [findAux, List.isPrefixOf_iff_prefix, h]

theorem findAux_spec (pat : Str) : ∀ (s : Str) (i k : Nat), findAux pat s i = some k →
    ∃ a b, s = a ++ pat ++ b ∧ k = i + a.length := by
  intro s
  induction s with
  | nil =>
    intro i k h
    cases pat with
    | nil => 
      simp [findAux] at h
      exact ⟨[], [], by simp, by simp [h]⟩
    | cons p ps => simp [findAux] at h
  | cons c cs ih =>
    intro i k h
    by_cases hp : pat <+: c :: cs
    · simp [findAux, List.isPrefixOf_iff_prefix, hp] at h
      obtain ⟨t, ht⟩ := hp
      exact ⟨[], t, by simp [ht], by simp [h]⟩
    · simp [findAux, List.isPrefixOf_iff_prefix, hp] at h
      obtain ⟨a, b, hs, hk⟩ := ih (i + 1) k h
      exact ⟨c :: a, b, by simp [hs], by simp [hk]; omega⟩

theorem findAux_char (c : Char) (b : Str) : ∀ (a : Str) (i : Nat), c ∉ a →
    findAux [c] (a ++ c :: b) i = some (i + a.length) := by
  intro a
  induction a with
  | nil => intro i _; simp [findAux, List.isPrefixOf]
  | cons x xs ih =>
    intro i h
    have hx : ¬ c = x := fun e => h (by simp [e])
    have hxs : c ∉ xs := fun e => h (by simp [e])
    simp [findAux, List.isPrefixOf, hx, ih (i + 1) hxs]
    omega

theorem find_eq_none_iff (s pat : Str) : find s pat = none ↔ ¬ pat <:+: s := by
  simp [find, findFrom, findAux_eq_none_iff]

theorem find_isSome_iff (s pat : Str) : (find s pat).isSome ↔ pat <:+: s := by
  rw [← not_iff_not, ← find_eq_none_iff]
  cases find s pat <;> simp

theorem find_prefix (s pat : Str) (h : pat <+: s) : find s pat = some 0 := by
  simp [find, findFrom, findAux_prefix pat s 0 h]

theorem find_spec (s pat : Str) (k : Nat) (h : find s pat = some k) :
    ∃ a b, s = a ++ pat ++ b ∧ k = a.length := by
  simp only [find, findFrom, Nat.not_lt_zero, if_false, List.drop_zero] at h
  obtain ⟨a, b, hs, hk⟩ := findAux_spec pat s 0 k h
  exact ⟨a, b, hs, by simpa using hk⟩

theorem find_le (s pat : Str) (k : Nat) (h : find s pat = some k) :
    k + pat.length ≤ s.length := by
  obtain ⟨a, b, hs, hk⟩ := find_spec s pat k h
  subst hs hk
  simp only [List.length_append]
  omega

theorem findFrom_char (c : Char) (a b : Str) (pos : Nat) (hpos : pos ≤ a.length)
    (h : c ∉ a.drop pos) : findFrom (a ++ c :: b) [c] pos = some a.length := by
  have hlen : ¬ (a ++ c :: b).length < pos := by simp; omega
  have hd : (a ++ c :: b).drop pos = a.drop pos ++ c :: b := by
    rw [List.drop_append_of_le_length hpos]
  simp only [findFrom, hlen, if_false, hd, findAux_char c b _ pos h]
  simp
  omega

theorem find_char (c : Char) (a b : Str) (h : c ∉ a) : find (a ++ c :: b) [c] = some a.length := by
  simpa [find] using findFrom_char c a b 0 (Nat.zero_le _) (by simpa using h)

theorem findFrom_char_none (c : Char) (s : Str) (pos : Nat) (h : c ∉ s) :
    findFrom s [c] pos = none := by
  unfold findFrom
  split
  · rfl
  · rw [findAux_eq_none_iff]
    intro hi
    exact h ((List.IsInfix.trans hi (List.drop_suffix pos s).isInfix).subset (by simp))

theorem erase_zero (s : Str) (n : Nat) : erase s 0 (some n) = some (s.drop n) := by
  simp [erase]

theorem erase_npos (s : Str) (pos : Nat) (h : pos ≤ s.length) :
    erase s pos none = some (s.take pos) := by
  simp [erase, Nat.not_lt.mpr h]

theorem erase_isSome (s : Str) (pos : Nat) (count : Option Nat) (h : pos ≤ s.length) :
    ∃ r, erase s pos count = some r ∧ r.length + min (count.getD s.length) (s.length - pos) = s.length := by
  cases count with
  | none => 
    refine ⟨_, erase_npos s pos h, ?_⟩
    simp
    omega
  | some n => 
    refine ⟨s.take pos ++ s.drop (pos + n), by simp [erase, Nat.not_lt.mpr h], ?_⟩
    simp
    omega

theorem findFrom_le (s pat : Str) (pos k : Nat) (h : findFrom s pat pos = some k) :
    pos ≤ k ∧ k + pat.length ≤ s.length := by
  unfold findFrom at h
  split at h
  · simp at h
  · rename_i hlen
    obtain ⟨a, b, hs, hk⟩ := findAux_spec pat _ pos k h
    have hl := congrArg List.length hs
    simp only [List.length_drop, List.length_append] at hl
    omega

/-! ## The comment-stripping loop always ends -/

theorem stripLoop_of_clean (fuel : Nat) (line : Str) (c : Bool)
    (h1 : find line commentOpen = none) (h2 : find line commentClose = none) :
    stripLoop fuel line c = some (line, c) := by
  unfold stripLoop
  simp [h1, h2]

theorem stripLoop_succ (fuel : Nat) (line : Str) (c : Bool)
    (h : ¬ (find line commentOpen = none ∧ find line commentClose = none)) :
    stripLoop (fuel + 1) line c =
      match stripPass line c (find line commentOpen) (find line commentClose) with
      | none => none
      | some (s, c1) => stripLoop fuel s c1 := by
  rw [stripLoop]
  split
  · rename_i h1 h2
    exact absurd ⟨h1, h2⟩ h
  · rfl

theorem stripLoop_zero (line : Str) (c : Bool)
    (h : ¬ (find line commentOpen = none ∧ find line commentClose = none)) :
    stripLoop 0 line c = none := by
  rw [stripLoop]
  split
  · rename_i h1 h2
    exact absurd ⟨h1, h2⟩ h
  · rfl

theorem stripPass_shorter (line : Str) (c : Bool)
    (h : ¬ (find line commentOpen = none ∧ find line commentClose = none)) :
    ∃ s c1, stripPass line c (find line commentOpen) (find line commentClose) = some (s, c1) ∧
      s.length + 3 ≤ line.length := by
  cases h1 : find line commentOpen with
  | some rem1 =>
    have hb := find_le line commentOpen rem1 h1
    have hlen : commentOpen.length = 4 := rfl
    cases h2 : find line commentClose with
    | none =>
      refine ⟨line.take rem1, true, ?_, ?_⟩
      · simp [stripPass, erase_npos line rem1 (by omega)]
      · simp only [List.length_take]
        omega
    | some rem2 =>
      refine ⟨line.take rem1 ++ line.drop (rem1 + (rem2 + 3)), false, ?_, ?_⟩
      · have : ¬ line.length < rem1 := by omega
        simp [stripPass, erase, this]
      · simp only [List.length_append, List.length_take, List.length_drop]
        omega
  | none =>
    cases h2 : find line commentClose with
    | none => exact absurd ⟨h1, h2⟩ h
    | some rem2 =>
      have hb := find_le line commentClose rem2 h2
      have hlen : commentClose.length = 3 := rfl
      refine ⟨line.drop (rem2 + 3), false, ?_, ?_⟩
      · simp [stripPass, erase]
      · simp only [List.length_drop]
        omega

theorem stripLoop_total : ∀ (fuel : Nat) (line : Str) (c : Bool), line.length ≤ fuel →
    ∃ s c1, stripLoop fuel line c = some (s, c1) ∧
      find s commentOpen = none ∧ find s commentClose = none := by
  intro fuel
  induction fuel with
  | zero =>
    intro line c hlen
    have hnil : line = [] := List.length_eq_zero.mp (Nat.le_zero.mp hlen)
    subst hnil
    exact ⟨[], c, stripLoop_of_clean 0 [] c rfl rfl, rfl, rfl⟩
  | succ fuel ih =>
    intro line c hlen
    by_cases h : find line commentOpen = none ∧ find line commentClose = none
    · exact ⟨line, c, stripLoop_of_clean _ line c h.1 h.2, h.1, h.2⟩
    · obtain ⟨s, c1, hp, hs⟩ := stripPass_shorter line c h
      obtain ⟨s2, c2, hl, hclean⟩ := ih s c1 (by omega)
      refine ⟨s2, c2, ?_, hclean⟩
      rw [stripLoop_succ fuel line c h, hp]
      exact hl

theorem stripComments_total (line : Str) (c : Bool) :
    ∃ s c1, stripComments line c = some (s, c1) ∧
      find s commentOpen = none ∧ find s commentClose = none :=
  stripLoop_total line.length line c (Nat.le_refl _)

theorem scanLines_total (strFind : Str) : ∀ (ls : List Str) (i : Nat) (c found : Bool)
    (lines : List Nat), ∃ r, scanLines strFind ls i c found lines = some r := by
  intro ls
  induction ls with
  | nil => intro i c found lines; exact ⟨_, rfl⟩
  | cons l rest ih =>
    intro i c found lines
    obtain ⟨s, c1, hs, _⟩ := stripComments_total l c
    simp only [scanLines, hs]
    split
    · exact ih _ _ _ _
    · exact ih _ _ _ _

theorem GetLineNumbers_total (fs : FileSystem) (fileName strFind : Str) (lines : List Nat) :
    ∃ r, GetLineNumbers fs fileName strFind lines = some r :=
  scanLines_total strFind _ 0 false false lines

/-! ## The explicit-line loop -/

theorem type1Loop_skip (p : Str) (l : List Str) (d : Str) (h : ¬ p <:+: d) :
    type1Loop (p :: l) d = type1Loop l d := by
  simp [type1Loop, (find_eq_none_iff d p).mpr h]

theorem type1Loop_no_match : ∀ (l : List Str) (d : Str), (∀ p ∈ l, ¬ p <:+: d) →
    type1Loop l d = some (LoopExit.fellThrough d) := by
  intro l
  induction l with
  | nil => intro d _; rfl
  | cons p l ih =>
    intro d h
    rw [type1Loop_skip p l d (h p (by simp))]
    exact ih d (fun q hq => h q (by simp [hq]))

theorem type1Loop_at_start (p : Str) (l : List Str) (tok rest : Str) (htok : spaceChar ∉ tok) :
    type1Loop (p :: l) (p ++ tok ++ " ".toList ++ rest) = some (LoopExit.returned tok) := by
  have hfind : find (p ++ tok ++ " ".toList ++ rest) p = some 0 :=
    find_prefix _ _ ⟨tok ++ " ".toList ++ rest, by simp⟩
  have herase : erase (p ++ tok ++ " ".toList ++ rest) 0 (some p.length)
      = some (tok ++ spaceChar :: rest) := by
    rw [erase_zero]
    have : p ++ tok ++ " ".toList ++ rest = p ++ (tok ++ spaceChar :: rest) := by
      simp [spaceChar]
    rw [this, List.drop_left]
  have hsp : find (tok ++ spaceChar :: rest) " ".toList = some tok.length :=
    find_char spaceChar tok rest htok
  have htake : erase (tok ++ spaceChar :: rest) tok.length none = some tok := by
    rw [erase_npos _ _ (by simp)]
    simp
  simp only [type1Loop, hfind, herase, hsp, htake]

theorem type1Loop_total : ∀ (l : List Str) (d : Str), ∃ r, type1Loop l d = some r := by
  intro l
  induction l with
  | nil => intro d; exact ⟨_, rfl⟩
  | cons p l ih =>
    intro d
    cases h : find d p with
    | none =>
      simp only [type1Loop, h]
      exact ih d
    | some k =>
      cases hs : find (d.drop p.length) " ".toList with
      | none =>
        simp only [type1Loop, h, erase_zero, hs]
        exact ih _
      | some idx =>
        have hb := find_le _ _ _ hs
        have he := erase_npos (d.drop p.length) idx (by omega)
        simp only [type1Loop, h, erase_zero, hs, he]
        exact ⟨_, rfl⟩

/-! ## Quoted names -/

theorem quoteStr_eq : quoteStr = [quoteChar] := rfl

theorem find_quote_none (d : Str) (h : quoteChar ∉ d) : find d quoteStr = none := by
  rw [find_eq_none_iff, quoteStr_eq]
  intro hi
  exact h (hi.subset (by simp))

/-- Shape of a description whose first two single quotes enclose `N`. -/
theorem quoted_shape (a N b : Str) :
    a ++ quoteStr ++ N ++ quoteStr ++ b = a ++ quoteChar :: (N ++ quoteChar :: b) := by
  simp [quoteStr_eq]

theorem quoted_n1 (a N b : Str) (hq1 : quoteChar ∉ a) :
    find (a ++ quoteStr ++ N ++ quoteStr ++ b) quoteStr = some a.length := by
  rw [quoted_shape, quoteStr_eq]
  exact find_char quoteChar a _ hq1

theorem quoted_n2 (a N b : Str) (hq2 : quoteChar ∉ N) :
    findFrom (a ++ quoteStr ++ N ++ quoteStr ++ b) quoteStr (a.length + 1)
      = some (a.length + 1 + N.length) := by
  have hs : a ++ quoteStr ++ N ++ quoteStr ++ b = (a ++ quoteChar :: N) ++ quoteChar :: b := by
    simp [quoteStr_eq]
  rw [hs, quoteStr_eq]
  have := findFrom_char quoteChar (a ++ quoteChar :: N) b (a.length + 1) (by simp)
    (by simpa using hq2)
  have hl : (a ++ quoteChar :: N).length = a.length + 1 + N.length := by
    simp only [List.length_append, List.length_cons]
    omega
  rw [hl] at this
  exact this

theorem quoted_erase1 (a N b : Str) :
    erase (a ++ quoteStr ++ N ++ quoteStr ++ b) 0 (some (a.length + 1))
      = some (N ++ quoteChar :: b) := by
  rw [erase_zero, quoted_shape]
  have : a ++ quoteChar :: (N ++ quoteChar :: b) = (a ++ [quoteChar]) ++ (N ++ quoteChar :: b) := by
    simp
  rw [this]
  have hl : a.length + 1 = (a ++ [quoteChar]).length := by simp
  rw [hl, List.drop_left]

theorem quoted_erase2 (N b : Str) (k : Nat) (hk : k = N.length) :
    erase (N ++ quoteChar :: b) k none = some N := by
  subst hk
  rw [erase_npos _ _ (by simp)]
  simp

/-! ## The symbolic-name loop -/

theorem type2Loop_skip (fs : FileSystem) (f p : Str) (l : List Str) (d : Str)
    (h : ¬ p <:+: d) : type2Loop fs f (p :: l) d = type2Loop fs f l d := by
  simp [type2Loop, (find_eq_none_iff d p).mpr h]

theorem type2Loop_no_match (fs : FileSystem) (f : Str) : ∀ (l : List Str) (d : Str),
    (∀ p ∈ l, ¬ p <:+: d) → type2Loop fs f l d = some (LoopExit.fellThrough d) := by
  intro l
  induction l with
  | nil => intro d _; rfl
  | cons p l ih =>
    intro d h
    rw [type2Loop_skip fs f p l d (h p (by simp))]
    exact ih d (fun q hq => h q (by simp [hq]))

theorem type2Loop_no_quote (fs : FileSystem) (f : Str) (d : Str) (hq : quoteChar ∉ d) :
    ∀ (l : List Str), type2Loop fs f l d = some (LoopExit.fellThrough d) := by
  intro l
  induction l with
  | nil => rfl
  | cons p l ih =>
    cases h : find d p with
    | none => simp only [type2Loop, h, ih]
    | some k => simp only [type2Loop, h, find_quote_none d hq, ih]

theorem type2Loop_hit (fs : FileSystem) (f p : Str) (l : List Str) (a N b : Str)
    (r : Bool × List Nat) (hq1 : quoteChar ∉ a) (hq2 : quoteChar ∉ N)
    (hp : p <:+: a ++ quoteStr ++ N ++ quoteStr ++ b)
    (hr : GetLineNumbers fs f N [] = some r) :
    type2Loop fs f (p :: l) (a ++ quoteStr ++ N ++ quoteStr ++ b) =
      match firstLine r with
      | some ln => some (LoopExit.returned (to_string ln))
      | none => some (LoopExit.fellThrough N) := by
  obtain ⟨k, hk⟩ : ∃ k, find (a ++ quoteStr ++ N ++ quoteStr ++ b) p = some k := by
    have := (find_isSome_iff _ p).mpr hp
    exact Option.isSome_iff_exists.mp this
  have hlt : a.length < a.length + 1 + N.length := by omega
  have hsub : a.length + 1 + N.length - a.length - 1 = N.length := by omega
  simp only [type2Loop, hk, quoted_n1 a N b hq1, succPos, quoted_n2 a N b hq2, hlt, if_true,
    quoted_erase1, quoted_erase2 N b _ hsub, hr]
  obtain ⟨found, lines⟩ := r
  cases found with
  | false => simp only [type2Loop_no_quote fs f N hq2 l, firstLine]
  | true =>
    cases lines with
    | nil => simp only [type2Loop_no_quote fs f N hq2 l, firstLine]
    | cons ln rest => rfl

theorem type2Loop_quoted (fs : FileSystem) (f : Str) (a N b : Str) (r : Bool × List Nat)
    (hq1 : quoteChar ∉ a) (hq2 : quoteChar ∉ N)
    (hr : GetLineNumbers fs f N [] = some r) :
    ∀ (l : List Str), (∃ p ∈ l, p <:+: a ++ quoteStr ++ N ++ quoteStr ++ b) →
    type2Loop fs f l (a ++ quoteStr ++ N ++ quoteStr ++ b) =
      match firstLine r with
      | some ln => some (LoopExit.returned (to_string ln))
      | none => some (LoopExit.fellThrough N) := by
  intro l
  induction l with
  | nil => intro h; obtain ⟨p, hp, _⟩ := h; simp at hp
  | cons p l ih =>
    intro h
    by_cases hp : p <:+: a ++ quoteStr ++ N ++ quoteStr ++ b
    · exact type2Loop_hit fs f p l a N b r hq1 hq2 hp hr
    · rw [type2Loop_skip fs f p l _ hp]
      apply ih
      obtain ⟨q, hq, hqi⟩ := h
      rcases List.mem_cons.mp hq with rfl | hq
      · exact absurd hqi hp
      · exact ⟨q, hq, hqi⟩

theorem findFrom_quote_after (pre mid post : Str) (k : Nat) (hk : k = pre.length)
    (hq : quoteChar ∉ mid) :
    findFrom (pre ++ (mid ++ quoteChar :: post)) quoteStr k = some (k + mid.length) := by
  subst hk
  have hs : pre ++ (mid ++ quoteChar :: post) = (pre ++ mid) ++ quoteChar :: post := by simp
  rw [hs, quoteStr_eq]
  have := findFrom_char quoteChar (pre ++ mid) post pre.length (by simp) (by simpa using hq)
  rw [List.length_append] at this
  exact this

theorem erase_prefix (pre rest : Str) (k : Nat) (hk : k = pre.length) :
    erase (pre ++ rest) 0 (some k) = some rest := by
  subst hk
  rw [erase_zero, List.drop_left]

/-! ## The compound property block -/

theorem type3_no_match (fs : FileSystem) (f d : Str) (h : ¬ strRef3 <:+: d) :
    type3 fs f d = some none := by
  simp [type3, (find_eq_none_iff d strRef3).mpr h]

theorem type3_no_quote (fs : FileSystem) (f d : Str) (hq : quoteChar ∉ d) :
    type3 fs f d = some none := by
  cases h : find d strRef3 with
  | none => simp only [type3, h]
  | some k => simp only [type3, h, find_quote_none d hq]

theorem type3_quoted (fs : FileSystem) (f A T B P C : Str) (r : Bool × List Nat)
    (hA : quoteChar ∉ A) (hT : quoteChar ∉ T) (hB : quoteChar ∉ B) (hP : quoteChar ∉ P)
    (h3 : strRef3 <:+: A ++ quoteChar :: (T ++ quoteChar :: (B ++ quoteChar :: (P ++ quoteChar :: C))))
    (hr : GetLineNumbers fs f (T ++ ">".toList ++ P) [] = some r) :
    type3 fs f (A ++ quoteChar :: (T ++ quoteChar :: (B ++ quoteChar :: (P ++ quoteChar :: C)))) =
      some ((firstLine r).map to_string) := by
  obtain ⟨k, hk⟩ : ∃ k, find (A ++ quoteChar :: (T ++ quoteChar :: (B ++ quoteChar ::
      (P ++ quoteChar :: C)))) strRef3 = some k :=
    Option.isSome_iff_exists.mp ((find_isSome_iff _ strRef3).mpr h3)
  have h1 : find (A ++ quoteChar :: (T ++ quoteChar :: (B ++ quoteChar :: (P ++ quoteChar :: C))))
      quoteStr = some A.length := by
    rw [quoteStr_eq]; exact find_char quoteChar A _ hA
  have h2 : findFrom (A ++ quoteChar :: (T ++ quoteChar :: (B ++ quoteChar ::
      (P ++ quoteChar :: C)))) quoteStr (A.length + 1) = some (A.length + 1 + T.length) := by
    have := findFrom_quote_after (A ++ [quoteChar]) T (B ++ quoteChar :: (P ++ quoteChar :: C))
      (A.length + 1) (by simp) hT
    simpa using this
  have h3 : findFrom (A ++ quoteChar :: (T ++ quoteChar :: (B ++ quoteChar ::
      (P ++ quoteChar :: C)))) quoteStr (A.length + 1 + T.length + 1)
      = some (A.length + 1 + T.length + 1 + B.length) := by
    have := findFrom_quote_after (A ++ quoteChar :: (T ++ [quoteChar])) B (P ++ quoteChar :: C)
      (A.length + 1 + T.length + 1) (by simp; omega) hB
    simpa using this
  have h4 : findFrom (A ++ quoteChar :: (T ++ quoteChar :: (B ++ quoteChar ::
      (P ++ quoteChar :: C)))) quoteStr (A.length + 1 + T.length + 1 + B.length + 1)
      = some (A.length + 1 + T.length + 1 + B.length + 1 + P.length) := by
    have := findFrom_quote_after (A ++ quoteChar :: (T ++ quoteChar :: (B ++ [quoteChar]))) P C
      (A.length + 1 + T.length + 1 + B.length + 1) (by simp; omega) hP
    simpa using this
  have hc : A.length < A.length + 1 + T.length ∧
      A.length + 1 + T.length < A.length + 1 + T.length + 1 + B.length ∧
      A.length + 1 + T.length + 1 + B.length
        < A.length + 1 + T.length + 1 + B.length + 1 + P.length := by omega
  have e1 : erase (A ++ quoteChar :: (T ++ quoteChar :: (B ++ quoteChar :: (P ++ quoteChar :: C))))
      0 (some (A.length + 1)) = some (T ++ quoteChar :: (B ++ quoteChar :: (P ++ quoteChar :: C))) := by
    have := erase_prefix (A ++ [quoteChar]) (T ++ quoteChar :: (B ++ quoteChar ::
      (P ++ quoteChar :: C))) (A.length + 1) (by simp)
    simpa using this
  have e2 : erase (T ++ quoteChar :: (B ++ quoteChar :: (P ++ quoteChar :: C)))
      (A.length + 1 + T.length - A.length - 1) none = some T :=
    quoted_erase2 T _ _ (by omega)
  have e3 : erase (A ++ quoteChar :: (T ++ quoteChar :: (B ++ quoteChar :: (P ++ quoteChar :: C))))
      0 (some (A.length + 1 + T.length + 1 + B.length + 1)) = some (P ++ quoteChar :: C) := by
    have := erase_prefix (A ++ quoteChar :: (T ++ quoteChar :: (B ++ [quoteChar])))
      (P ++ quoteChar :: C) (A.length + 1 + T.length + 1 + B.length + 1) (by simp; omega)
    simpa using this
  have e4 : erase (P ++ quoteChar :: C)
      (A.length + 1 + T.length + 1 + B.length + 1 + P.length
        - (A.length + 1 + T.length + 1 + B.length) - 1) none = some P :=
    quoted_erase2 P _ _ (by omega)
  simp only [type3, hk, h1, succPos, h2, h3, h4, hc, and_self, if_true, e1, e2, e3, e4, hr]
  obtain ⟨found, lines⟩ := r
  cases found with
  | false => rfl
  | true =>
    cases lines with
    | nil => rfl
    | cons ln rest => rfl

/-! ## The expression-error resolver -/

theorem swissKnife_no_match (fs : FileSystem) (f d : Str) (h : ¬ strRefSwissKnife <:+: d) :
    FindSwissKnifeErrorLineStr fs f d = some "1".toList := by
  simp only [FindSwissKnifeErrorLineStr, (find_eq_none_iff d strRefSwissKnife).mpr h]

theorem swissKnife_quoted (fs : FileSystem) (f a N b : Str) (r : Bool × List Nat)
    (hq1 : quoteChar ∉ a) (hq2 : quoteChar ∉ N)
    (hp : strRefSwissKnife <:+: a ++ quoteStr ++ N ++ quoteStr ++ b)
    (hr : GetLineNumbers fs f N [] = some r) :
    FindSwissKnifeErrorLineStr fs f (a ++ quoteStr ++ N ++ quoteStr ++ b) =
      some (lineStringOf r) := by
  obtain ⟨k, hk⟩ : ∃ k, find (a ++ quoteStr ++ N ++ quoteStr ++ b) strRefSwissKnife = some k :=
    Option.isSome_iff_exists.mp ((find_isSome_iff _ _).mpr hp)
  have hlt : a.length < a.length + 1 + N.length := by omega
  have hsub : a.length + 1 + N.length - a.length - 1 = N.length := by omega
  simp only [FindSwissKnifeErrorLineStr, hk, quoted_n1 a N b hq1, succPos, quoted_n2 a N b hq2,
    hlt, if_true, quoted_erase1, quoted_erase2 N b _ hsub, hr]
  obtain ⟨found, lines⟩ := r
  cases found with
  | false => rfl
  | true =>
    cases lines with
    | nil => rfl
    | cons ln rest => rfl

/-! ## Neither resolver fails -/

theorem quote_erase_total (d : Str) (n1 n2 : Nat) (hlt : n1 < n2)
    (h2 : findFrom d quoteStr (n1 + 1) = some n2) :
    ∃ s, erase (d.drop (n1 + 1)) (n2 - n1 - 1) none = some s := by
  have hb := findFrom_le d quoteStr (n1 + 1) n2 h2
  have hl : quoteStr.length = 1 := rfl
  exact ⟨_, erase_npos _ _ (by simp only [List.length_drop]; omega)⟩

theorem type2Loop_total (fs : FileSystem) (f : Str) : ∀ (l : List Str) (d : Str),
    ∃ r, type2Loop fs f l d = some r := by
  intro l
  induction l with
  | nil => intro d; exact ⟨_, rfl⟩
  | cons p l ih =>
    intro d
    cases h : find d p with
    | none =>
      simp only [type2Loop, h]
      exact ih d
    | some k =>
      cases h1 : find d quoteStr with
      | none =>
        simp only [type2Loop, h, h1]
        exact ih d
      | some n1 =>
        cases h2 : findFrom d quoteStr (n1 + 1) with
        | none =>
          simp only [type2Loop, h, h1, succPos, h2]
          exact ih d
        | some n2 =>
          by_cases hlt : n1 < n2
          · obtain ⟨s, hs⟩ := quote_erase_total d n1 n2 hlt h2
            obtain ⟨r, hr⟩ := GetLineNumbers_total fs f s []
            simp only [type2Loop, h, h1, succPos, h2, hlt, if_true, erase_zero, hs, hr]
            obtain ⟨found, lines⟩ := r
            cases found with
            | false => exact ih s
            | true =>
              cases lines with
              | nil => exact ih s
              | cons ln rest => exact ⟨_, rfl⟩
          · simp only [type2Loop, h, h1, succPos, h2, hlt, if_false]
            exact ih d

theorem type3_total (fs : FileSystem) (f d : Str) : ∃ r, type3 fs f d = some r := by
  cases h : find d strRef3 with
  | none => exact ⟨none, by simp only [type3, h]⟩
  | some k =>
    cases h1 : find d quoteStr with
    | none => exact ⟨none, by simp only [type3, h, h1]⟩
    | some n1 =>
      cases h2 : findFrom d quoteStr (n1 + 1) with
      | none => exact ⟨none, by simp only [type3, h, h1, succPos, h2]⟩
      | some n2 =>
        cases h3 : findFrom d quoteStr (n2 + 1) with
        | none => exact ⟨none, by simp only [type3, h, h1, succPos, h2, h3]⟩
        | some n3 =>
          cases h4 : findFrom d quoteStr (n3 + 1) with
          | none => exact ⟨none, by simp only [type3, h, h1, succPos, h2, h3, h4]⟩
          | some n4 =>
            by_cases hc : n1 < n2 ∧ n2 < n3 ∧ n3 < n4
            · obtain ⟨s1, hs1⟩ := quote_erase_total d n1 n2 hc.1 h2
              obtain ⟨s2, hs2⟩ := quote_erase_total d n3 n4 hc.2.2 h4
              obtain ⟨r, hr⟩ := GetLineNumbers_total fs f (s1 ++ ">".toList ++ s2) []
              simp only [type3, h, h1, succPos, h2, h3, h4, hc, and_self, if_true, erase_zero,
                hs1, hs2, hr]
              obtain ⟨found, lines⟩ := r
              cases found with
              | false => exact ⟨_, rfl⟩
              | true =>
                cases lines with
                | nil => exact ⟨_, rfl⟩
                | cons ln rest => exact ⟨_, rfl⟩
            · exact ⟨none, by simp only [type3, h, h1, succPos, h2, h3, h4, hc, if_false]⟩

theorem FindXmlErrorLineStr_total (fs : FileSystem) (d f : Str) :
    ∃ r, FindXmlErrorLineStr fs d f = some r := by
  obtain ⟨e1, h1⟩ := type1Loop_total strRef1 d
  cases e1 with
  | returned s => exact ⟨s, by simp only [FindXmlErrorLineStr, h1]⟩
  | fellThrough d1 =>
    obtain ⟨e2, h2⟩ := type2Loop_total fs f strRef2 d1
    cases e2 with
    | returned s => exact ⟨s, by simp only [FindXmlErrorLineStr, h1, h2]⟩
    | fellThrough d2 =>
      obtain ⟨e3, h3⟩ := type3_total fs f d2
      cases e3 with
      | none => exact ⟨"1".toList, by simp only [FindXmlErrorLineStr, h1, h2, h3]⟩
      | some s => exact ⟨s, by simp only [FindXmlErrorLineStr, h1, h2, h3]⟩

theorem FindSwissKnifeErrorLineStr_total (fs : FileSystem) (f d : Str) :
    ∃ r, FindSwissKnifeErrorLineStr fs f d = some r := by
  cases h : find d strRefSwissKnife with
  | none => exact ⟨"1".toList, by simp only [FindSwissKnifeErrorLineStr, h]⟩
  | some k =>
    cases h1 : find d quoteStr with
    | none => exact ⟨"1".toList, by simp only [FindSwissKnifeErrorLineStr, h, h1]⟩
    | some n1 =>
      cases h2 : findFrom d quoteStr (n1 + 1) with
      | none => exact ⟨"1".toList, by simp only [FindSwissKnifeErrorLineStr, h, h1, succPos, h2]⟩
      | some n2 =>
        by_cases hlt : n1 < n2
        · obtain ⟨s, hs⟩ := quote_erase_total d n1 n2 hlt h2
          obtain ⟨r, hr⟩ := GetLineNumbers_total fs f s []
          simp only [FindSwissKnifeErrorLineStr, h, h1, succPos, h2, hlt, if_true, erase_zero,
            hs, hr]
          obtain ⟨found, lines⟩ := r
          cases found with
          | false => exact ⟨_, rfl⟩
          | true =>
            cases lines with
            | nil => exact ⟨_, rfl⟩
            | cons ln rest => exact ⟨_, rfl⟩
        · exact ⟨"1".toList, by simp only [FindSwissKnifeErrorLineStr, h, h1, succPos, h2, hlt, if_false]⟩

/-! ## The resolver as a whole -/

theorem FindXml_of_type1 (fs : FileSystem) (d f s : Str)
    (h : type1Loop strRef1 d = some (LoopExit.returned s)) :
    FindXmlErrorLineStr fs d f = some s := by
  simp only [FindXmlErrorLineStr, h]

theorem FindXml_of_type2 (fs : FileSystem) (d f : Str) (h1 : ∀ p ∈ strRef1, ¬ p <:+: d) :
    FindXmlErrorLineStr fs d f =
      match type2Loop fs f strRef2 d with
      | none => none
      | some (LoopExit.returned strLineN) => some strLineN
      | some (LoopExit.fellThrough strDesc2) =>
        match type3 fs f strDesc2 with
        | none => none
        | some (some strLineN) => some strLineN
        | some none => some "1".toList := by
  simp only [FindXmlErrorLineStr, type1Loop_no_match strRef1 d h1]

theorem FindXml_symbolic (fs : FileSystem) (f a N b : Str) (r : Bool × List Nat)
    (hq1 : quoteChar ∉ a) (hq2 : quoteChar ∉ N)
    (h1 : ∀ p ∈ strRef1, ¬ p <:+: a ++ quoteStr ++ N ++ quoteStr ++ b)
    (h2 : ∃ p ∈ strRef2, p <:+: a ++ quoteStr ++ N ++ quoteStr ++ b)
    (hr : GetLineNumbers fs f N [] = some r) :
    FindXmlErrorLineStr fs (a ++ quoteStr ++ N ++ quoteStr ++ b) f =
      some (lineStringOf r) := by
  rw [FindXml_of_type2 fs _ f h1, type2Loop_quoted fs f a N b r hq1 hq2 hr strRef2 h2]
  obtain ⟨found, lines⟩ := r
  cases found with
  | false => simp only [firstLine, type3_no_quote fs f N hq2, lineStringOf]
  | true =>
    cases lines with
    | nil => simp only [firstLine, type3_no_quote fs f N hq2, lineStringOf]
    | cons ln rest => rfl

theorem FindXml_no_phrase (fs : FileSystem) (d f : Str)
    (h : ∀ p ∈ strRef1 ++ strRef2 ++ [strRef3], ¬ p <:+: d) :
    FindXmlErrorLineStr fs d f = some "1".toList := by
  have h1 : ∀ p ∈ strRef1, ¬ p <:+: d := fun p hp => h p (by simp [hp])
  have h2 : ∀ p ∈ strRef2, ¬ p <:+: d := fun p hp => h p (by simp [hp])
  have h3 : ¬ strRef3 <:+: d := h strRef3 (by simp)
  rw [FindXml_of_type2 fs d f h1, type2Loop_no_match fs f strRef2 d h2]
  simp only [type3_no_match fs f d h3]

theorem FindXml_property (fs : FileSystem) (f T P : Str) (r : Bool × List Nat)
    (hT : quoteChar ∉ T) (hP : quoteChar ∉ P)
    (h12 : ∀ p ∈ strRef1 ++ strRef2, ¬ p <:+: propertyErrorDescription T P)
    (hr : GetLineNumbers fs f (T ++ ">".toList ++ P) [] = some r) :
    FindXmlErrorLineStr fs (propertyErrorDescription T P) f =
      some (lineStringOf r) := by
  have h1 : ∀ p ∈ strRef1, ¬ p <:+: propertyErrorDescription T P :=
    fun p hp => h12 p (by simp [hp])
  have h2 : ∀ p ∈ strRef2, ¬ p <:+: propertyErrorDescription T P :=
    fun p hp => h12 p (by simp [hp])
  have hshape : propertyErrorDescription T P = strRef3 ++ quoteChar :: (T ++ quoteChar ::
      (": cannot convert ".toList ++ quoteChar :: (P ++ quoteChar :: " to int64_t".toList))) := by
    simp [propertyErrorDescription, strRef3, quoteChar]
  rw [FindXml_of_type2 fs _ f h1, type2Loop_no_match fs f strRef2 _ h2, hshape]
  have h3 := type3_quoted fs f strRef3 T ": cannot convert ".toList P " to int64_t".toList r
    (by decide) hT (by decide) hP (List.prefix_append _ _).isInfix hr
  simp only [h3]
  obtain ⟨found, lines⟩ := r
  cases found with
  | false => rfl
  | true =>
    cases lines with
    | nil => rfl
    | cons ln rest => rfl

/-! ## Lines of the file and what stripping leaves of them -/

theorem getlinesAux_infix : ∀ (text cur line : Str), line ∈ getlinesAux text cur →
    line <:+: cur ++ text := by
  intro text
  induction text with
  | nil =>
    intro cur line h
    by_cases hc : cur.isEmpty = true
    · simp [getlinesAux, hc] at h
    · simp only [getlinesAux, hc] at h
      simp only [Bool.false_eq_true, if_false, List.mem_singleton] at h
      subst h
      simp
  | cons c rest ih =>
    intro cur line h
    by_cases hc : c = '\n'
    · simp only [getlinesAux, hc, if_true, List.mem_cons] at h
      rcases h with h | h
      · subst h
        exact (List.prefix_append _ _).isInfix
      · have := ih [] line h
        rw [List.nil_append] at this
        exact this.trans ((List.suffix_cons _ _).isInfix.trans (List.suffix_append _ _).isInfix)
    · simp only [getlinesAux, hc, if_false] at h
      have := ih (cur ++ [c]) line h
      simpa using this

theorem getlines_infix (text line : Str) (h : line ∈ getlines text) : line <:+: text := by
  have := getlinesAux_infix text [] line h
  simpa using this

theorem stripPass_infix (line : Str) (c : Bool) (s : Str) (c1 : Bool)
    (hboth : ¬ (commentOpen <:+: line ∧ commentClose <:+: line))
    (h : stripPass line c (find line commentOpen) (find line commentClose) = some (s, c1)) :
    s <:+: line := by
  cases h1 : find line commentOpen with
  | some rem1 =>
    have ho : commentOpen <:+: line := (find_isSome_iff _ _).mp (by simp [h1])
    cases h2 : find line commentClose with
    | some rem2 =>
      exact absurd ⟨ho, (find_isSome_iff _ _).mp (by simp [h2])⟩ hboth
    | none =>
      have hb := find_le line commentOpen rem1 h1
      rw [h1, h2] at h
      simp only [stripPass, Option.map_none', erase_npos line rem1 (by omega), Option.some.injEq,
        Prod.mk.injEq] at h
      rw [← h.1]
      exact (List.take_prefix _ _).isInfix
  | none =>
    cases h2 : find line commentClose with
    | some rem2 =>
      rw [h1, h2] at h
      simp only [stripPass, erase_zero, Option.some.injEq, Prod.mk.injEq] at h
      rw [← h.1]
      exact (List.drop_suffix _ _).isInfix
    | none =>
      rw [h1, h2] at h
      simp only [stripPass, Option.some.injEq, Prod.mk.injEq] at h
      rw [← h.1]

theorem stripLoop_infix : ∀ (fuel : Nat) (line : Str) (c : Bool) (s : Str) (c1 : Bool),
    ¬ (commentOpen <:+: line ∧ commentClose <:+: line) →
    stripLoop fuel line c = some (s, c1) → s <:+: line := by
  intro fuel
  induction fuel with
  | zero =>
    intro line c s c1 _ h
    by_cases hclean : find line commentOpen = none ∧ find line commentClose = none
    · rw [stripLoop_of_clean 0 line c hclean.1 hclean.2] at h
      simp only [Option.some.injEq, Prod.mk.injEq] at h
      rw [← h.1]
    · rw [stripLoop_zero line c hclean] at h
      simp at h
  | succ fuel ih =>
    intro line c s c1 hboth h
    by_cases hclean : find line commentOpen = none ∧ find line commentClose = none
    · rw [stripLoop_of_clean _ line c hclean.1 hclean.2] at h
      simp only [Option.some.injEq, Prod.mk.injEq] at h
      rw [← h.1]
    · obtain ⟨s0, c0, hp, _⟩ := stripPass_shorter line c hclean
      rw [stripLoop_succ fuel line c hclean, hp] at h
      have h0 : s0 <:+: line := stripPass_infix line c s0 c0 hboth hp
      have hboth0 : ¬ (commentOpen <:+: s0 ∧ commentClose <:+: s0) :=
        fun hb => hboth ⟨hb.1.trans h0, hb.2.trans h0⟩
      exact (ih s0 c0 s c1 hboth0 h).trans h0

theorem scanLines_absent (strFind : Str) : ∀ (ls : List Str) (i : Nat) (c found : Bool)
    (lines : List Nat),
    (∀ line ∈ ls, ¬ strFind <:+: line ∧ ¬ (commentOpen <:+: line ∧ commentClose <:+: line)) →
    scanLines strFind ls i c found lines = some (found, lines) := by
  intro ls
  induction ls with
  | nil => intro i c found lines _; rfl
  | cons l rest ih =>
    intro i c found lines h
    obtain ⟨s, c1, hs, _⟩ := stripComments_total l c
    have hl := h l (by simp)
    have hinf : s <:+: l := stripLoop_infix _ l c s c1 hl.2 hs
    have hnone : find s strFind = none :=
      (find_eq_none_iff s strFind).mpr (fun hi => hl.1 (hi.trans hinf))
    simp only [scanLines, hs, hnone, Option.isSome_none, Bool.and_false, Bool.false_eq_true,
      if_false]
    exact ih _ _ _ _ (fun line hline => h line (by simp [hline]))

theorem GetLineNumbers_absent (fs : FileSystem) (fileName strFind : Str)
    (h : ∀ line ∈ fileLines fs fileName,
      ¬ strFind <:+: line ∧ ¬ (commentOpen <:+: line ∧ commentClose <:+: line)) :
    GetLineNumbers fs fileName strFind [] = some (false, []) :=
  scanLines_absent strFind _ 0 false false [] h

theorem fileLines_infix (fs : FileSystem) (fileName line : Str)
    (h : line ∈ fileLines fs fileName) : ∃ text, fs fileName = some text ∧ line <:+: text := by
  unfold fileLines at h
  cases ht : fs fileName with
  | none => simp [ht] at h
  | some text =>
    rw [ht] at h
    exact ⟨text, rfl, getlines_infix text line h⟩

/-! ## Claims C1 to C10 -/

set_option maxRecDepth 100000

/-- C1, counterexample: the description "XML Parse error at line 42, column 7, unexpected end
of file" resolves to "42," (the text up to the next space, comma included), not to "42". -/
theorem C1_counterexample :
    FindXmlErrorLineStr (oneFile "")
        "XML Parse error at line 42, column 7, unexpected end of file".toList
        "camera.xml".toList = some "42,".toList ∧
    FindXmlErrorLineStr (oneFile "")
        "XML Parse error at line 42, column 7, unexpected end of file".toList
        "camera.xml".toList ≠ some "42".toList := by
  decide

/-- C1, amended: every description that begins with "XML Parse error at line 42, column 7, "
and does not contain the phrase "Error while parsing XML stream at line " resolves, for every
source file, to "42,": the text between the phrase and the next space. -/
theorem C1_parse_error_line (fs : FileSystem) (fileName rest : Str)
    (h : ¬ "Error while parsing XML stream at line ".toList
          <:+: "XML Parse error at line 42, column 7, ".toList ++ rest) :
    FindXmlErrorLineStr fs ("XML Parse error at line 42, column 7, ".toList ++ rest) fileName
      = some "42,".toList := by
  apply FindXml_of_type1
  have hshape : "XML Parse error at line 42, column 7, ".toList ++ rest
      = "XML Parse error at line ".toList ++ "42,".toList ++ " ".toList
          ++ ("column 7, ".toList ++ rest) := by
    simp
  rw [strRef1, type1Loop_skip _ _ _ h, hshape]
  exact type1Loop_at_start _ [] "42,".toList _ (by decide)

/-- C1, witness: the amended statement at the rest "unexpected end of file". -/
theorem C1_parse_error_line_witness :
    (¬ "Error while parsing XML stream at line ".toList
          <:+: "XML Parse error at line 42, column 7, ".toList ++ "unexpected end of file".toList) ∧
    FindXmlErrorLineStr (oneFile gainOnLine10)
      ("XML Parse error at line 42, column 7, ".toList ++ "unexpected end of file".toList)
      "camera.xml".toList = some "42,".toList :=
  ⟨by decide, C1_parse_error_line _ _ _ (by decide)⟩

/-- C2, the code at the failing input: for every source file, also one whose line 10 is the
first to hold `<Gain>`, the description "Fatal error : Dangling node reference 'Gain'"
resolves to the default "1": no reference string of the table occurs in it, the second
entry being spelled "referenc e". -/
theorem C2_dangling_reference_default :
    GetLineNumbers (oneFile gainOnLine10) "camera.xml".toList "<Gain>".toList [] = some (true, [10]) ∧
    GetLineNumbers (oneFile gainOnLine10) "camera.xml".toList "Gain".toList [] = some (true, [10]) ∧
    (∀ (fs : FileSystem) (fileName : Str),
      FindXmlErrorLineStr fs "Fatal error : Dangling node reference 'Gain'".toList fileName
        = some "1".toList) :=
  ⟨by decide, by decide, fun _ _ => rfl⟩

/-- C3, counterexample: with the type name "Node " and the property name "P" the description
also matches the symbolic-name phrase "Node ", which is tried first: the name looked up is
"Node ", found on line 1, although the composite key "Node >P" stands on line 2 only. -/
theorem C3_counterexample :
    quoteChar ∉ "Node ".toList ∧ quoteChar ∉ "P".toList ∧
    GetLineNumbers (oneFile "Node \nNode >P\n") "camera.xml".toList
        ("Node ".toList ++ ">".toList ++ "P".toList) [] = some (true, [2]) ∧
    FindXmlErrorLineStr (oneFile "Node \nNode >P\n")
        (propertyErrorDescription "Node ".toList "P".toList) "camera.xml".toList
      = some "1".toList := by
  decide

/-- C3, amended: for every type name `T` and property name `P` without a single quote such
that the description `Error in property of type 'T': cannot convert 'P' to int64_t` contains
no explicit-line phrase and no symbolic-name phrase, and every source file in which
`GetLineNumbers` finds the composite key `T>P`, the description resolves to the decimal
string of the first line reported for that key. -/
theorem C3_compound_property (fs : FileSystem) (fileName T P : Str) (l : Nat) (ls : List Nat)
    (hT : quoteChar ∉ T) (hP : quoteChar ∉ P)
    (h12 : ∀ p ∈ strRef1 ++ strRef2, ¬ p <:+: propertyErrorDescription T P)
    (hfound : GetLineNumbers fs fileName (T ++ ">".toList ++ P) [] = some (true, l :: ls)) :
    FindXmlErrorLineStr fs (propertyErrorDescription T P) fileName = some (to_string l) :=
  FindXml_property fs fileName T P (true, l :: ls) hT hP h12 hfound

/-- C3, witness: `T = IntReg`, `P = MyProp`, a file whose line 2 is `<IntReg>MyProp</IntReg>`. -/
theorem C3_compound_property_witness :
    GetLineNumbers (oneFile "<r>\n<IntReg>MyProp</IntReg>\n</r>\n") "camera.xml".toList
        ("IntReg".toList ++ ">".toList ++ "MyProp".toList) [] = some (true, [2]) ∧
    FindXmlErrorLineStr (oneFile "<r>\n<IntReg>MyProp</IntReg>\n</r>\n")
        (propertyErrorDescription "IntReg".toList "MyProp".toList) "camera.xml".toList
      = some (to_string 2) :=
  ⟨by decide, C3_compound_property _ _ _ _ 2 [] (by decide) (by decide) (by decide) (by decide)⟩

/-- C4, the code at a failing input: the description "Error: XML Parse error at line 42 and
column 7, bad" contains the phrase "XML Parse error at line " followed by the token "42" and
a space, and resolves to "t" for every source file: the phrase's length is cut off the
front of the description, not off the place where the phrase stands. -/
theorem C4_phrase_not_at_start :
    "XML Parse error at line ".toList ++ "42".toList ++ " ".toList
      <:+: "Error: XML Parse error at line 42 and column 7, bad".toList ∧
    (∀ (fs : FileSystem) (fileName : Str),
      FindXmlErrorLineStr fs "Error: XML Parse error at line 42 and column 7, bad".toList fileName
        = some "t".toList) :=
  ⟨by decide, fun _ _ => rfl⟩

/-- C5, counterexample: in "'x' Node 'Gain' not found" the first two single quotes after the
matched phrase "Node " enclose `Gain`, which `GetLineNumbers` finds on line 3; the resolver
looks up `x`, the text between the first two single quotes of the description, and returns
"2". -/
theorem C5_counterexample :
    (∀ p ∈ strRef1, ¬ p <:+: "'x' Node 'Gain' not found".toList) ∧
    "'x' Node 'Gain' not found".toList
      = "'x' ".toList ++ "Node ".toList ++ quoteStr ++ "Gain".toList ++ quoteStr
          ++ " not found".toList ∧
    "Node ".toList ∈ strRef2 ∧
    GetLineNumbers (oneFile "<r>\n<x/>\n<Gain/>\n</r>\n") "camera.xml".toList "Gain".toList []
      = some (true, [3]) ∧
    FindXmlErrorLineStr (oneFile "<r>\n<x/>\n<Gain/>\n</r>\n")
        "'x' Node 'Gain' not found".toList "camera.xml".toList = some "2".toList := by
  decide

/-- C5, amended: for every description that contains no explicit-line phrase and contains one
of the five symbolic-name phrases, and whose first two single quotes (wherever they stand
relative to the phrase) enclose the name `N`, the result is decided by what `GetLineNumbers`
answers for `N` on the source file: the decimal string of the first line it reports when it
finds the name, the default "1" otherwise. -/
theorem C5_symbolic_name (fs : FileSystem) (fileName a N b : Str) (r : Bool × List Nat)
    (hq1 : quoteChar ∉ a) (hq2 : quoteChar ∉ N)
    (h1 : ∀ p ∈ strRef1, ¬ p <:+: a ++ quoteStr ++ N ++ quoteStr ++ b)
    (h2 : ∃ p ∈ strRef2, p <:+: a ++ quoteStr ++ N ++ quoteStr ++ b)
    (hr : GetLineNumbers fs fileName N [] = some r) :
    FindXmlErrorLineStr fs (a ++ quoteStr ++ N ++ quoteStr ++ b) fileName
      = some (lineStringOf r) ∧
    (∀ l ls, r = (true, l :: ls) → lineStringOf r = to_string l) := by
  refine ⟨FindXml_symbolic fs fileName a N b r hq1 hq2 h1 h2 hr, ?_⟩
  intro l ls hl
  subst hl
  rfl

/-- C5, witness: "Node 'Gain' not found" on a file whose line 10 holds `Gain`. -/
theorem C5_symbolic_name_witness :
    FindXmlErrorLineStr (oneFile gainOnLine10)
        ("Node ".toList ++ quoteStr ++ "Gain".toList ++ quoteStr ++ " not found".toList)
        "camera.xml".toList = some (lineStringOf (true, [10])) ∧
    lineStringOf (true, [10]) = "10".toList :=
  ⟨(C5_symbolic_name (oneFile gainOnLine10) "camera.xml".toList "Node ".toList "Gain".toList
      " not found".toList (true, [10]) (by decide) (by decide) (by decide)
      ⟨"Node ".toList, by decide, by decide⟩ (by decide)).1, by decide⟩

/-- C6, counterexample: `Gain` stands nowhere in the file and the key `IntReg>MyProp` stands
on line 2, yet the description "Node 'Gain' not found. Error in property of type 'IntReg':
cannot convert 'MyProp' to int64_t" resolves to the default "1", not to "2". -/
theorem C6_counterexample :
    GetLineNumbers (oneFile "<r>\n<IntReg>MyProp</IntReg>\n</r>\n") "camera.xml".toList
        "Gain".toList [] = some (false, []) ∧
    GetLineNumbers (oneFile "<r>\n<IntReg>MyProp</IntReg>\n</r>\n") "camera.xml".toList
        ("IntReg".toList ++ ">".toList ++ "MyProp".toList) [] = some (true, [2]) ∧
    FindXmlErrorLineStr (oneFile "<r>\n<IntReg>MyProp</IntReg>\n</r>\n")
        ("Node 'Gain' not found. ".toList
          ++ propertyErrorDescription "IntReg".toList "MyProp".toList)
        "camera.xml".toList = some "1".toList := by
  decide

/-- C7, counterexample: in "'x' Error while parsing equation for node 'Offset': bad" the
first two single quotes after the phrase enclose `Offset`, found on line 3; the resolver
looks up `x` and returns "2". -/
theorem C7_counterexample :
    "'x' Error while parsing equation for node 'Offset': bad".toList
      = "'x' ".toList ++ strRefSwissKnife ++ quoteStr ++ "Offset".toList ++ quoteStr
          ++ ": bad".toList ∧
    GetLineNumbers (oneFile "<r>\n<x/>\n<Offset/>\n</r>\n") "camera.xml".toList
        "Offset".toList [] = some (true, [3]) ∧
    FindSwissKnifeErrorLineStr (oneFile "<r>\n<x/>\n<Offset/>\n</r>\n") "camera.xml".toList
        "'x' Error while parsing equation for node 'Offset': bad".toList = some "2".toList := by
  decide

/-- C7, amended: for every description that contains the phrase "Error while parsing equation
for node " and whose first two single quotes (wherever they stand relative to the phrase)
enclose the name `N`, and every source file, `FindSwissKnifeErrorLineStr` returns the decimal
string of the first line `GetLineNumbers` reports for `N`, or "1" when it reports none. -/
theorem C7_expression_error (fs : FileSystem) (fileName a N b : Str) (r : Bool × List Nat)
    (hq1 : quoteChar ∉ a) (hq2 : quoteChar ∉ N)
    (hp : strRefSwissKnife <:+: a ++ quoteStr ++ N ++ quoteStr ++ b)
    (hr : GetLineNumbers fs fileName N [] = some r) :
    FindSwissKnifeErrorLineStr fs fileName (a ++ quoteStr ++ N ++ quoteStr ++ b)
      = some (lineStringOf r) ∧
    (∀ l ls, r = (true, l :: ls) → lineStringOf r = to_string l) ∧
    (r.2 = [] → lineStringOf r = "1".toList) := by
  refine ⟨swissKnife_quoted fs fileName a N b r hq1 hq2 hp hr, ?_, ?_⟩
  · intro l ls hl
    subst hl
    rfl
  · intro hnil
    obtain ⟨found, lines⟩ := r
    simp only at hnil
    subst hnil
    cases found <;> rfl

/-- C7, witness: the expression error of node `Offset` on a file whose line 3 holds it. -/
theorem C7_expression_error_witness :
    FindSwissKnifeErrorLineStr (oneFile "<r>\n<x/>\n<Offset/>\n</r>\n") "camera.xml".toList
        (strRefSwissKnife ++ quoteStr ++ "Offset".toList ++ quoteStr ++ ": bad".toList)
      = some (lineStringOf (true, [3])) ∧
    lineStringOf (true, [3]) = "3".toList :=
  ⟨(C7_expression_error (oneFile "<r>\n<x/>\n<Offset/>\n</r>\n") "camera.xml".toList
      strRefSwissKnife "Offset".toList ": bad".toList (true, [3]) (by decide) (by decide)
      (by decide) (by decide)).1, by decide⟩

/-- C8, counterexample: the text of the file does not contain `Offset`, but stripping the
comment of its line 2, `Off<!--c-->xyzset`, leaves `Offset`; the error is reported at line
"2", with exit code 2. -/
theorem C8_counterexample :
    ¬ "Offset".toList <:+: "<r>\nOff<!--c-->xyzset\n</r>\n".toList ∧
    FindSwissKnifeErrorLineStr (oneFile "<r>\nOff<!--c-->xyzset\n</r>\n") "camera.xml".toList
        "Error while parsing equation for node 'Offset': syntax error".toList
      = some "2".toList ∧
    main ⟨"3".toList, "1".toList, "0".toList, "0".toList⟩
        (oneFile "<r>\nOff<!--c-->xyzset\n</r>\n") (fun _ => true)
        (fun _ => EngineOutcome.loaded
          ["Error while parsing equation for node 'Offset': syntax error".toList])
        ["GcXmlValidator.exe".toList, "camera.xml".toList]
      = some ⟨[], swissKnifeLine "camera.xml".toList "2".toList
          "Error while parsing equation for node 'Offset': syntax error".toList, false, 2⟩ := by
  decide

/-- C8, amended: for every source file whose text does not contain `Offset` and none of whose
lines contains both `<!--` and `-->`, a run with a file argument in which the engine loads
the file and returns the single expression error "Error while parsing equation for node
'Offset': ..." resolves that error to "1", writes exactly the line of that error at "1" to
the output stream, and returns 2. -/
theorem C8_absent_node (ver : Version) (fs : FileSystem) (canOpenOut : Str → Bool)
    (engine : Str → EngineOutcome) (prog strFile : Str) (more : List Str) (rest : Str)
    (hOffset : ∀ text, fs strFile = some text → ¬ "Offset".toList <:+: text)
    (hComment : ∀ line ∈ fileLines fs strFile,
      ¬ (commentOpen <:+: line ∧ commentClose <:+: line))
    (hEngine : engine strFile = EngineOutcome.loaded
      ["Error while parsing equation for node 'Offset': ".toList ++ rest]) :
    FindSwissKnifeErrorLineStr fs strFile
        ("Error while parsing equation for node 'Offset': ".toList ++ rest) = some "1".toList ∧
    ∃ r, main ver fs canOpenOut engine (prog :: strFile :: more) = some r ∧ r.retError = 2 ∧
      r.outStream = swissKnifeLine strFile "1".toList
        ("Error while parsing equation for node 'Offset': ".toList ++ rest) := by
  have habsent : GetLineNumbers fs strFile "Offset".toList [] = some (false, []) := by
    apply GetLineNumbers_absent
    intro line hline
    obtain ⟨text, ht, hinf⟩ := fileLines_infix fs strFile line hline
    exact ⟨fun hi => hOffset text ht (hi.trans hinf), hComment line hline⟩
  have hshape : "Error while parsing equation for node 'Offset': ".toList ++ rest
      = strRefSwissKnife ++ quoteStr ++ "Offset".toList ++ quoteStr ++ (": ".toList ++ rest) := by
    simp [strRefSwissKnife, quoteStr]
  have hres : FindSwissKnifeErrorLineStr fs strFile
      ("Error while parsing equation for node 'Offset': ".toList ++ rest) = some "1".toList := by
    rw [hshape]
    exact swissKnife_quoted fs strFile strRefSwissKnife "Offset".toList (": ".toList ++ rest)
      (false, []) (by decide) (by decide)
      ⟨[], quoteStr ++ "Offset".toList ++ quoteStr ++ (": ".toList ++ rest),
        by simp only [List.nil_append, List.append_assoc]⟩ habsent
  refine ⟨hres, ?_⟩
  cases more with
  | nil =>
    exact ⟨_, by simp only [main, hEngine, tryBlock, reportSwissKnifes, hres, setRet, emit]; rfl,
      rfl, by simp⟩
  | cons strOutFile more1 =>
    by_cases hopen : canOpenOut strOutFile = true
    · exact ⟨_, by simp only [main, hEngine, tryBlock, reportSwissKnifes, hres, setRet, emit,
        hopen, if_true]; rfl, rfl, by simp⟩
    · exact ⟨_, by simp only [main, hEngine, tryBlock, reportSwissKnifes, hres, setRet, emit,
        hopen, if_false]; rfl, rfl, by simp⟩

/-- C8, witness: a file of three lines without `Offset` and without comments, validated with
no output file. -/
theorem C8_absent_node_witness :
    FindSwissKnifeErrorLineStr (oneFile "<r>\n<Gain/>\n</r>\n") "camera.xml".toList
        ("Error while parsing equation for node 'Offset': ".toList ++ "syntax error".toList)
      = some "1".toList ∧
    ∃ r, main ⟨"3".toList, "1".toList, "0".toList, "0".toList⟩ (oneFile "<r>\n<Gain/>\n</r>\n")
        (fun _ => true)
        (fun _ => EngineOutcome.loaded
          ["Error while parsing equation for node 'Offset': ".toList ++ "syntax error".toList])
        ("GcXmlValidator.exe".toList :: "camera.xml".toList :: []) = some r ∧ r.retError = 2 ∧
      r.outStream = swissKnifeLine "camera.xml".toList "1".toList
        ("Error while parsing equation for node 'Offset': ".toList ++ "syntax error".toList) :=
  C8_absent_node _ (oneFile "<r>\n<Gain/>\n</r>\n") _ _ _ "camera.xml".toList [] _
    (by intro text ht; cases ht; decide) (by decide) rfl

/-- C9: a description that contains none of the eight reference phrases resolves to "1" for
every source file; an expression error that does not contain "Error while parsing equation
for node " resolves to "1"; and both resolvers return a string on every input: no call of
`erase` is out of range and every comment-stripping loop ends. -/
theorem C9_default_and_no_failure :
    (∀ (fs : FileSystem) (description fileName : Str),
      (∀ p ∈ strRef1 ++ strRef2 ++ [strRef3], ¬ p <:+: description) →
      FindXmlErrorLineStr fs description fileName = some "1".toList) ∧
    (∀ (fs : FileSystem) (fileName strError : Str),
      ¬ strRefSwissKnife <:+: strError →
      FindSwissKnifeErrorLineStr fs fileName strError = some "1".toList) ∧
    (∀ (fs : FileSystem) (description fileName : Str),
      ∃ strLineN, FindXmlErrorLineStr fs description fileName = some strLineN) ∧
    (∀ (fs : FileSystem) (fileName strError : Str),
      ∃ strLineN, FindSwissKnifeErrorLineStr fs fileName strError = some strLineN) :=
  ⟨FindXml_no_phrase, swissKnife_no_match, FindXmlErrorLineStr_total,
    FindSwissKnifeErrorLineStr_total⟩

/-- C9, witness: the description "Value out of range" contains none of the phrases. -/
theorem C9_default_and_no_failure_witness :
    FindXmlErrorLineStr (oneFile gainOnLine10) "Value out of range".toList "camera.xml".toList
      = some "1".toList ∧
    FindSwissKnifeErrorLineStr (oneFile gainOnLine10) "camera.xml".toList
      "Value out of range".toList = some "1".toList :=
  ⟨C9_default_and_no_failure.1 _ _ _ (by decide),
    C9_default_and_no_failure.2.1 _ _ _ (by decide)⟩

/-- C10, counterexample: a description that begins with "XML Parse error at line 42 " and
goes on with the phrase "Error while parsing XML stream at line " resolves to "ile", not
to "42": the phrase listed first is the one used. -/
theorem C10_counterexample :
    "XML Parse error at line 42 and Error while parsing XML stream at line 7 ".toList
      = "XML Parse error at line ".toList ++ "42".toList ++ " ".toList
          ++ "and Error while parsing XML stream at line 7 ".toList ∧
    spaceChar ∉ "42".toList ∧
    FindXmlErrorLineStr (oneFile "")
        "XML Parse error at line 42 and Error while parsing XML stream at line 7 ".toList
        "camera.xml".toList = some "ile".toList := by
  decide

/-- C10, amended: for every space-free token and every source file, a description that begins
with "Error while parsing XML stream at line ", the token and a space resolves to the token;
so does a description that begins with "XML Parse error at line ", the token and a space and
does not contain "Error while parsing XML stream at line "; whatever the rest of the
description matches, and without the file being read. -/
theorem C10_explicit_line_first (fs : FileSystem) (fileName tok rest : Str)
    (htok : spaceChar ∉ tok) :
    FindXmlErrorLineStr fs
        ("Error while parsing XML stream at line ".toList ++ tok ++ " ".toList ++ rest) fileName
      = some tok ∧
    (¬ "Error while parsing XML stream at line ".toList
          <:+: "XML Parse error at line ".toList ++ tok ++ " ".toList ++ rest →
      FindXmlErrorLineStr fs
          ("XML Parse error at line ".toList ++ tok ++ " ".toList ++ rest) fileName
        = some tok) := by
  constructor
  · apply FindXml_of_type1
    rw [strRef1]
    exact type1Loop_at_start _ _ tok rest htok
  · intro h
    apply FindXml_of_type1
    rw [strRef1, type1Loop_skip _ _ _ h]
    exact type1Loop_at_start _ _ tok rest htok

/-- C10, witness: the token "42" before a rest that names the node `Gain` of line 10 and a
property conversion error. -/
theorem C10_explicit_line_first_witness :
    spaceChar ∉ "42".toList ∧
    FindXmlErrorLineStr (oneFile gainOnLine10)
        ("Error while parsing XML stream at line ".toList ++ "42".toList ++ " ".toList
          ++ "and column 7 : Node 'Gain' not found".toList) "camera.xml".toList
      = some "42".toList ∧
    FindXmlErrorLineStr (oneFile gainOnLine10)
        ("XML Parse error at line ".toList ++ "42".toList ++ " ".toList
          ++ "and column 7, Node 'Gain' not found".toList) "camera.xml".toList
      = some "42".toList :=
  ⟨by decide,
    (C10_explicit_line_first (oneFile gainOnLine10) "camera.xml".toList "42".toList
      "and column 7 : Node 'Gain' not found".toList (by decide)).1,
    (C10_explicit_line_first (oneFile gainOnLine10) "camera.xml".toList "42".toList
      "and column 7, Node 'Gain' not found".toList (by decide)).2 (by decide)⟩

/-! ## The stripping loop, pass by pass -/

theorem stripLoop_mono : ∀ (fuel : Nat) (line : Str) (c : Bool) (r : Str × Bool),
    stripLoop fuel line c = some r → stripLoop (fuel + 1) line c = some r := by
  intro fuel
  induction fuel with
  | zero =>
    intro line c r h
    by_cases hclean : find line commentOpen = none ∧ find line commentClose = none
    · rw [stripLoop_of_clean _ line c hclean.1 hclean.2] at h ⊢
      exact h
    · rw [stripLoop_zero line c hclean] at h
      simp at h
  | succ fuel ih =>
    intro line c r h
    by_cases hclean : find line commentOpen = none ∧ find line commentClose = none
    · rw [stripLoop_of_clean _ line c hclean.1 hclean.2] at h ⊢
      exact h
    · obtain ⟨s0, c0, hp, _⟩ := stripPass_shorter line c hclean
      rw [stripLoop_succ _ line c hclean, hp] at h ⊢
      exact ih s0 c0 r h

theorem stripLoop_mono_le (fuel fuel1 : Nat) (line : Str) (c : Bool) (r : Str × Bool)
    (hle : fuel ≤ fuel1) (h : stripLoop fuel line c = some r) :
    stripLoop fuel1 line c = some r := by
  induction hle with
  | refl => exact h
  | step _ ih => exact stripLoop_mono _ line c r ih

theorem stripLoop_enough (fuel : Nat) (line : Str) (c : Bool) (hle : line.length ≤ fuel) :
    stripLoop fuel line c = stripComments line c := by
  obtain ⟨s, c1, hs, _⟩ := stripComments_total line c
  rw [hs]
  exact stripLoop_mono_le _ fuel line c (s, c1) hle hs

theorem stripComments_clean (line : Str) (c : Bool)
    (h1 : ¬ commentOpen <:+: line) (h2 : ¬ commentClose <:+: line) :
    stripComments line c = some (line, c) :=
  stripLoop_of_clean _ line c ((find_eq_none_iff _ _).mpr h1) ((find_eq_none_iff _ _).mpr h2)

theorem stripComments_step (line : Str) (c : Bool) (s0 : Str) (c0 : Bool)
    (hmark : ¬ (find line commentOpen = none ∧ find line commentClose = none))
    (hp : stripPass line c (find line commentOpen) (find line commentClose) = some (s0, c0)) :
    stripComments line c = stripComments s0 c0 := by
  obtain ⟨s1, c1, hp1, hlen⟩ := stripPass_shorter line c hmark
  rw [hp] at hp1
  simp only [Option.some.injEq, Prod.mk.injEq] at hp1
  obtain ⟨rfl, rfl⟩ := hp1
  have hpos : line.length = (line.length - 1) + 1 := by omega
  unfold stripComments
  rw [hpos, stripLoop_succ _ line c hmark, hp]
  exact stripLoop_enough _ s0 c0 (by omega)

/-- A line with `<!--` and without `-->`: the first pass cuts the line at the open marker
and sets the flag. -/
theorem stripComments_open_step (line : Str) (c : Bool) (rem1 : Nat)
    (h1 : find line commentOpen = some rem1) (h2 : ¬ commentClose <:+: line) :
    stripComments line c = stripComments (line.take rem1) true := by
  have h2n : find line commentClose = none := (find_eq_none_iff _ _).mpr h2
  apply stripComments_step line c
  · rw [h1]; simp
  · have hb := find_le line commentOpen rem1 h1
    rw [h1, h2n]
    simp only [stripPass, Option.map_none', erase_npos line rem1 (by omega), Option.isNone_none]

/-- A line with `-->` and without `<!--`: the first pass cuts the line after the close
marker and clears the flag. -/
theorem stripComments_close_step (line : Str) (c : Bool) (rem2 : Nat)
    (h1 : ¬ commentOpen <:+: line) (h2 : find line commentClose = some rem2) :
    stripComments line c = stripComments (line.drop (rem2 + 3)) false := by
  have h1n : find line commentOpen = none := (find_eq_none_iff _ _).mpr h1
  apply stripComments_step line c
  · rw [h2]; simp
  · rw [h1n, h2]
    simp only [stripPass, erase_zero]

theorem stripLoop_flag_true : ∀ (fuel : Nat) (line : Str) (s : Str) (c1 : Bool),
    ¬ commentClose <:+: line → stripLoop fuel line true = some (s, c1) → c1 = true := by
  intro fuel
  induction fuel with
  | zero =>
    intro line s c1 _ h
    by_cases hclean : find line commentOpen = none ∧ find line commentClose = none
    · rw [stripLoop_of_clean _ line true hclean.1 hclean.2] at h
      simp only [Option.some.injEq, Prod.mk.injEq] at h
      exact h.2.symm
    · rw [stripLoop_zero line true hclean] at h
      simp at h
  | succ fuel ih =>
    intro line s c1 hclose h
    by_cases hclean : find line commentOpen = none ∧ find line commentClose = none
    · rw [stripLoop_of_clean _ line true hclean.1 hclean.2] at h
      simp only [Option.some.injEq, Prod.mk.injEq] at h
      exact h.2.symm
    · have h2n : find line commentClose = none := (find_eq_none_iff _ _).mpr hclose
      cases h1 : find line commentOpen with
      | none => exact absurd ⟨h1, h2n⟩ hclean
      | some rem1 =>
        have hb := find_le line commentOpen rem1 h1
        rw [stripLoop_succ _ line true hclean, h1, h2n] at h
        simp only [stripPass, Option.map_none', erase_npos line rem1 (by omega),
          Option.isNone_none] at h
        exact ih _ s c1
          (fun hi => hclose (hi.trans (List.take_prefix _ _).isInfix)) h

theorem stripLoop_flag_false : ∀ (fuel : Nat) (line : Str) (s : Str) (c1 : Bool),
    ¬ commentOpen <:+: line → stripLoop fuel line false = some (s, c1) → c1 = false := by
  intro fuel
  induction fuel with
  | zero =>
    intro line s c1 _ h
    by_cases hclean : find line commentOpen = none ∧ find line commentClose = none
    · rw [stripLoop_of_clean _ line false hclean.1 hclean.2] at h
      simp only [Option.some.injEq, Prod.mk.injEq] at h
      exact h.2.symm
    · rw [stripLoop_zero line false hclean] at h
      simp at h
  | succ fuel ih =>
    intro line s c1 hopen h
    by_cases hclean : find line commentOpen = none ∧ find line commentClose = none
    · rw [stripLoop_of_clean _ line false hclean.1 hclean.2] at h
      simp only [Option.some.injEq, Prod.mk.injEq] at h
      exact h.2.symm
    · have h1n : find line commentOpen = none := (find_eq_none_iff _ _).mpr hopen
      cases h2 : find line commentClose with
      | none => exact absurd ⟨h1n, h2⟩ hclean
      | some rem2 =>
        rw [stripLoop_succ _ line false hclean, h1n, h2] at h
        simp only [stripPass, erase_zero] at h
        exact ih _ s c1
          (fun hi => hopen (hi.trans (List.drop_suffix _ _).isInfix)) h

/-- Flag after a line that holds `<!--` and no `-->`: set, whatever it was. -/
theorem stripComments_flag_open (line : Str) (c : Bool) (s : Str) (c1 : Bool)
    (h1 : commentOpen <:+: line) (h2 : ¬ commentClose <:+: line)
    (h : stripComments line c = some (s, c1)) : c1 = true := by
  obtain ⟨rem1, hr⟩ : ∃ k, find line commentOpen = some k :=
    Option.isSome_iff_exists.mp ((find_isSome_iff _ _).mpr h1)
  rw [stripComments_open_step line c rem1 hr h2] at h
  exact stripLoop_flag_true _ _ s c1
    (fun hi => h2 (hi.trans (List.take_prefix _ _).isInfix)) h

/-- Flag after a line that holds `-->` and no `<!--`: cleared, whatever it was. -/
theorem stripComments_flag_close (line : Str) (c : Bool) (s : Str) (c1 : Bool)
    (h1 : ¬ commentOpen <:+: line) (h2 : commentClose <:+: line)
    (h : stripComments line c = some (s, c1)) : c1 = false := by
  obtain ⟨rem2, hr⟩ : ∃ k, find line commentClose = some k :=
    Option.isSome_iff_exists.mp ((find_isSome_iff _ _).mpr h2)
  rw [stripComments_close_step line c rem2 h1 hr] at h
  exact stripLoop_flag_false _ _ s c1
    (fun hi => h1 (hi.trans (List.drop_suffix _ _).isInfix)) h

/-! ## The loop over the lines -/

theorem scanLines_eq (strFind : Str) : ∀ (ls : List Str) (i : Nat) (c found : Bool)
    (lines : List Nat),
    scanLines strFind ls i c found lines
      = some (found || !(scanNew strFind ls i c).isEmpty, lines ++ scanNew strFind ls i c) := by
  intro ls
  induction ls with
  | nil => intro i c found lines; simp [scanLines, scanNew]
  | cons l rest ih =>
    intro i c found lines
    obtain ⟨s, c1, hs, _⟩ := stripComments_total l c
    simp only [scanLines, scanNew, hs]
    split
    · rw [ih]
      simp
    · rw [ih]

theorem GetLineNumbers_eq (fs : FileSystem) (fileName strFind : Str) :
    GetLineNumbers fs fileName strFind []
      = some (!(scanNew strFind (fileLines fs fileName) 0 false).isEmpty,
          scanNew strFind (fileLines fs fileName) 0 false) := by
  simp [GetLineNumbers, scanLines_eq]

theorem scanNew_bounds (strFind : Str) : ∀ (ls : List Str) (i : Nat) (c : Bool) (n : Nat),
    n ∈ scanNew strFind ls i c → i + 1 ≤ n ∧ n ≤ i + ls.length := by
  intro ls
  induction ls with
  | nil => intro i c n h; simp [scanNew] at h
  | cons l rest ih =>
    intro i c n h
    obtain ⟨s, c1, hs, _⟩ := stripComments_total l c
    simp only [scanNew, hs] at h
    simp only [List.length_cons]
    split at h
    · rcases List.mem_cons.mp h with h | h
      · omega
      · have := ih (i + 1) c1 n h
        omega
    · have := ih (i + 1) c1 n h
      omega

theorem scanNew_sorted (strFind : Str) : ∀ (ls : List Str) (i : Nat) (c : Bool),
    (scanNew strFind ls i c).Pairwise (· < ·) := by
  intro ls
  induction ls with
  | nil => intro i c; simp [scanNew]
  | cons l rest ih =>
    intro i c
    obtain ⟨s, c1, hs, _⟩ := stripComments_total l c
    simp only [scanNew, hs]
    split
    · refine List.pairwise_cons.mpr ⟨?_, ih (i + 1) c1⟩
      intro n hn
      have := scanNew_bounds strFind rest (i + 1) c1 n hn
      omega
    · exact ih (i + 1) c1

theorem commentAfter_total : ∀ (ls : List Str) (c : Bool), ∃ c1, commentAfter ls c = some c1 := by
  intro ls
  induction ls with
  | nil => intro c; exact ⟨c, rfl⟩
  | cons l rest ih =>
    intro c
    obtain ⟨s, c1, hs, _⟩ := stripComments_total l c
    simp only [commentAfter, hs]
    exact ih c1

theorem commentAfter_append : ∀ (l1 l2 : List Str) (c c1 : Bool),
    commentAfter l1 c = some c1 → commentAfter (l1 ++ l2) c = commentAfter l2 c1 := by
  intro l1
  induction l1 with
  | nil =>
    intro l2 c c1 h
    simp only [commentAfter, Option.some.injEq] at h
    subst h
    rfl
  | cons l rest ih =>
    intro l2 c c1 h
    obtain ⟨s, c0, hs, _⟩ := stripComments_total l c
    simp only [commentAfter, hs, List.cons_append] at h ⊢
    exact ih l2 c0 c1 h

theorem scanNew_append (strFind : Str) : ∀ (l1 l2 : List Str) (i : Nat) (c c1 : Bool),
    commentAfter l1 c = some c1 →
    scanNew strFind (l1 ++ l2) i c
      = scanNew strFind l1 i c ++ scanNew strFind l2 (i + l1.length) c1 := by
  intro l1
  induction l1 with
  | nil =>
    intro l2 i c c1 h
    simp only [commentAfter, Option.some.injEq] at h
    subst h
    simp [scanNew]
  | cons l rest ih =>
    intro l2 i c c1 h
    obtain ⟨s, c0, hs, _⟩ := stripComments_total l c
    simp only [commentAfter, hs] at h
    have hi : i + (l :: rest).length = i + 1 + rest.length := by
      simp only [List.length_cons]; omega
    simp only [scanNew, hs, List.cons_append, hi, List.append_eq]
    split
    · rw [ih l2 (i + 1) c0 c1 h]
      rfl
    · rw [ih l2 (i + 1) c0 c1 h]

/-- Lines without a comment marker leave the flag as it is. -/
theorem commentAfter_clean : ∀ (ls : List Str) (c : Bool),
    (∀ line ∈ ls, ¬ commentOpen <:+: line ∧ ¬ commentClose <:+: line) →
    commentAfter ls c = some c := by
  intro ls
  induction ls with
  | nil => intro c _; rfl
  | cons l rest ih =>
    intro c h
    have hl := h l (by simp)
    simp only [commentAfter, stripComments_clean l c hl.1 hl.2]
    exact ih c (fun line hline => h line (by simp [hline]))

/-- Inside a comment, lines without a comment marker are not reported. -/
theorem scanNew_clean_inside (strFind : Str) : ∀ (ls : List Str) (i : Nat),
    (∀ line ∈ ls, ¬ commentOpen <:+: line ∧ ¬ commentClose <:+: line) →
    scanNew strFind ls i true = [] := by
  intro ls
  induction ls with
  | nil => intro i _; rfl
  | cons l rest ih =>
    intro i h
    have hl := h l (by simp)
    simp only [scanNew, stripComments_clean l true hl.1 hl.2, Bool.not_true, Bool.false_and,
      Bool.false_eq_true, if_false]
    exact ih (i + 1) (fun line hline => h line (by simp [hline]))

/-- Outside a comment, of lines without a comment marker exactly those that contain the
needle are reported. -/
theorem scanNew_clean_outside (strFind : Str) : ∀ (ls : List Str) (i n : Nat),
    (∀ line ∈ ls, ¬ commentOpen <:+: line ∧ ¬ commentClose <:+: line) →
    (n ∈ scanNew strFind ls i false ↔
      ∃ k line, ls[k]? = some line ∧ n = i + k + 1 ∧ strFind <:+: line) := by
  intro ls
  induction ls with
  | nil => intro i n _; simp [scanNew]
  | cons l rest ih =>
    intro i n h
    have hl := h l (by simp)
    have hrest : ∀ line ∈ rest, ¬ commentOpen <:+: line ∧ ¬ commentClose <:+: line :=
      fun line hline => h line (by simp [hline])
    have ihn := ih (i + 1) n hrest
    simp only [scanNew, stripComments_clean l false hl.1 hl.2, Bool.not_false, Bool.true_and]
    constructor
    · intro hn
      by_cases hf : (find l strFind).isSome = true
      · rw [if_pos hf] at hn
        rcases List.mem_cons.mp hn with hn | hn
        · exact ⟨0, l, by simp, by omega, (find_isSome_iff _ _).mp hf⟩
        · obtain ⟨k, line, hk, hnk, hin⟩ := ihn.mp hn
          exact ⟨k + 1, line, by simpa using hk, by omega, hin⟩
      · rw [if_neg hf] at hn
        obtain ⟨k, line, hk, hnk, hin⟩ := ihn.mp hn
        exact ⟨k + 1, line, by simpa using hk, by omega, hin⟩
    · rintro ⟨k, line, hk, hnk, hin⟩
      cases k with
      | zero =>
        simp only [List.getElem?_cons_zero, Option.some.injEq] at hk
        subst hk
        rw [if_pos ((find_isSome_iff _ _).mpr hin)]
        exact List.mem_cons.mpr (Or.inl (by omega))
      | succ k =>
        have hmem : n ∈ scanNew strFind rest (i + 1) false :=
          ihn.mpr ⟨k, line, by simpa using hk, by omega, hin⟩
        split
        · exact List.mem_cons_of_mem _ hmem
        · exact hmem

/-! ## Claims C11 to C20 -/

/-- C11: for every needle and every file none of whose lines contains `<!--` or `-->`,
`GetLineNumbers` started with an empty vector returns the strictly ascending list whose
members are exactly the 1-based numbers of the lines that contain the needle as a substring
(and `true` exactly when that list is not empty). -/
theorem C11_lines_without_comments (fs : FileSystem) (fileName strFind : Str)
    (h : ∀ line ∈ fileLines fs fileName, ¬ commentOpen <:+: line ∧ ¬ commentClose <:+: line) :
    ∃ L, GetLineNumbers fs fileName strFind [] = some (!L.isEmpty, L) ∧
      L.Pairwise (· < ·) ∧
      ∀ n, n ∈ L ↔
        1 ≤ n ∧ ∃ line, (fileLines fs fileName)[n - 1]? = some line ∧ strFind <:+: line := by
  refine ⟨scanNew strFind (fileLines fs fileName) 0 false, GetLineNumbers_eq fs fileName strFind,
    scanNew_sorted strFind _ 0 false, ?_⟩
  intro n
  rw [scanNew_clean_outside strFind _ 0 n h]
  constructor
  · rintro ⟨k, line, hk, hn, hin⟩
    have hk1 : n - 1 = k := by omega
    exact ⟨by omega, line, by rw [hk1]; exact hk, hin⟩
  · rintro ⟨hn, line, hk, hin⟩
    exact ⟨n - 1, line, hk, by omega, hin⟩

/-- C11, witness: a file of four lines without comments, `Gain` standing on lines 2 and 4. -/
theorem C11_lines_without_comments_witness :
    GetLineNumbers (oneFile "<r>\n<Gain/>\n<x/>\n<GainRaw/>\n") "camera.xml".toList
        "Gain".toList [] = some (true, [2, 4]) ∧
    ∃ L, GetLineNumbers (oneFile "<r>\n<Gain/>\n<x/>\n<GainRaw/>\n") "camera.xml".toList
        "Gain".toList [] = some (!L.isEmpty, L) ∧
      L.Pairwise (· < ·) ∧
      ∀ n, n ∈ L ↔
        1 ≤ n ∧ ∃ line, (fileLines (oneFile "<r>\n<Gain/>\n<x/>\n<GainRaw/>\n")
          "camera.xml".toList)[n - 1]? = some line ∧ "Gain".toList <:+: line :=
  ⟨by decide, C11_lines_without_comments _ _ _ (by decide)⟩

/-- C12: for every file and every needle, `GetLineNumbers` started with an empty vector
returns `true` exactly when the vector it leaves is not empty; that vector is strictly
increasing and each of its entries lies between 1 and the number of lines of the file. -/
theorem C12_found_and_order (fs : FileSystem) (fileName strFind : Str) :
    ∃ found L, GetLineNumbers fs fileName strFind [] = some (found, L) ∧
      (found = true ↔ L ≠ []) ∧ L.Pairwise (· < ·) ∧
      ∀ n ∈ L, 1 ≤ n ∧ n ≤ (fileLines fs fileName).length := by
  refine ⟨_, _, GetLineNumbers_eq fs fileName strFind, ?_, scanNew_sorted strFind _ 0 false, ?_⟩
  · cases scanNew strFind (fileLines fs fileName) 0 false <;> simp
  · intro n hn
    have := scanNew_bounds strFind _ 0 false n hn
    omega

/-- C13, counterexample: `Gain` is a substring of no line of the file, but stripping the
comment of line 2, `<Ga<!--x-->123in>`, leaves `<Gain>`: the needle is found on line 2. -/
theorem C13_counterexample :
    (∀ line ∈ fileLines (oneFile "<r>\n<Ga<!--x-->123in>\n</r>\n") "camera.xml".toList,
      ¬ "Gain".toList <:+: line) ∧
    GetLineNumbers (oneFile "<r>\n<Ga<!--x-->123in>\n</r>\n") "camera.xml".toList
      "Gain".toList [] = some (true, [2]) := by
  decide

/-- C13, amended: for every file none of whose lines contains both `<!--` and `-->`, and
every needle that is a substring of no line of the file, `GetLineNumbers` started with an
empty vector returns `false` and leaves the vector empty. -/
theorem C13_absent_needle (fs : FileSystem) (fileName strFind : Str)
    (habsent : ∀ line ∈ fileLines fs fileName, ¬ strFind <:+: line)
    (hboth : ∀ line ∈ fileLines fs fileName,
      ¬ (commentOpen <:+: line ∧ commentClose <:+: line)) :
    GetLineNumbers fs fileName strFind [] = some (false, []) :=
  GetLineNumbers_absent fs fileName strFind (fun line hl => ⟨habsent line hl, hboth line hl⟩)

/-- C13, witness: a file with a comment that runs over two lines, and the needle `Offset`. -/
theorem C13_absent_needle_witness :
    GetLineNumbers (oneFile "<r>\n<!-- Gain\nis here -->\n<Gain/>\n</r>\n") "camera.xml".toList
      "Offset".toList [] = some (false, []) :=
  C13_absent_needle _ _ _ (by decide) (by decide)

/-- A line that starts with a comment whose close marker is the first `-->` of the line, the
text after it holding no marker: stripping leaves that text and clears the flag. -/
theorem stripComments_leading_comment (body post : Str) (c : Bool)
    (hfirst : find (commentOpen ++ body ++ commentClose ++ post) commentClose
      = some (commentOpen.length + body.length))
    (h1 : ¬ commentOpen <:+: post) (h2 : ¬ commentClose <:+: post) :
    stripComments (commentOpen ++ body ++ commentClose ++ post) c = some (post, false) := by
  have hopen : find (commentOpen ++ body ++ commentClose ++ post) commentOpen = some 0 :=
    find_prefix _ _ ⟨body ++ commentClose ++ post, by simp⟩
  have hdrop : (commentOpen ++ body ++ commentClose ++ post).drop
      (0 + (commentOpen.length + body.length + 3)) = post := by
    have hl : 0 + (commentOpen.length + body.length + 3)
        = (commentOpen ++ body ++ commentClose).length := by
      simp only [List.length_append]
      have : commentClose.length = 3 := rfl
      omega
    rw [hl, List.drop_left]
  rw [stripComments_step _ c post false (by rw [hopen]; simp)
    (by
      rw [hopen, hfirst]
      simp only [stripPass, Option.map_some', erase, Nat.not_lt_zero, if_false, List.take_zero,
        List.nil_append, hdrop, Option.isNone_some])]
  exact stripComments_clean post false h1 h2

/-- A line whose only comment marker is one `-->`: stripping leaves the text after the
marker and clears the flag. -/
theorem stripComments_closing (pre post : Str) (c : Bool)
    (hfirst : find (pre ++ commentClose ++ post) commentClose = some pre.length)
    (hopen : ¬ commentOpen <:+: pre ++ commentClose ++ post)
    (hclose : ¬ commentClose <:+: post) :
    stripComments (pre ++ commentClose ++ post) c = some (post, false) := by
  rw [stripComments_close_step _ c pre.length hopen hfirst]
  have hdrop : (pre ++ commentClose ++ post).drop (pre.length + 3) = post := by
    have hl : pre.length + 3 = (pre ++ commentClose).length := by
      simp only [List.length_append]
      rfl
    rw [hl, List.drop_left]
  rw [hdrop]
  exact stripComments_clean post false
    (fun hi => hopen (hi.trans (List.suffix_append _ _).isInfix)) hclose

/-- C14, counterexample: the first line `<!-->x<!-->post` is the comment `<!--`, `>x<!`,
`-->` followed by `post`; the first `-->` the loop meets is the one inside `<!-->`, and after
two passes `xost` is left: line 1 is reported for the needle `x` as well as line 2. -/
theorem C14_counterexample :
    fileLines (oneFile "<!-->x<!-->post\nx\n") "camera.xml".toList
      = [commentOpen ++ ">x<!".toList ++ commentClose ++ "post".toList, "x".toList] ∧
    "x".toList <:+: ">x<!".toList ∧
    ¬ commentOpen <:+: ">x<!".toList ∧ ¬ commentClose <:+: ">x<!".toList ∧
    ¬ commentOpen <:+: "x".toList ∧ ¬ commentClose <:+: "x".toList ∧
    ¬ "x".toList <:+: "post".toList ∧
    ¬ commentOpen <:+: "post".toList ∧ ¬ commentClose <:+: "post".toList ∧
    GetLineNumbers (oneFile "<!-->x<!-->post\nx\n") "camera.xml".toList "x".toList []
      = some (true, [1, 2]) := by
  decide

/-- C14, amended: for every needle and every two-line file whose first line is a comment
`<!--` ... `-->`, the close marker being the first `-->` of the line, followed only by text
that contains neither the needle nor a comment marker, and whose second line contains the
needle and no comment marker, `GetLineNumbers` returns `true` and exactly the list `[2]`
(whether or not the comment contains the needle). -/
theorem C14_commented_then_plain (fs : FileSystem) (fileName strFind body post line2 : Str)
    (hfile : fileLines fs fileName = [commentOpen ++ body ++ commentClose ++ post, line2])
    (hfirst : find (commentOpen ++ body ++ commentClose ++ post) commentClose
      = some (commentOpen.length + body.length))
    (hpost : ¬ strFind <:+: post ∧ ¬ commentOpen <:+: post ∧ ¬ commentClose <:+: post)
    (hline2 : strFind <:+: line2 ∧ ¬ commentOpen <:+: line2 ∧ ¬ commentClose <:+: line2) :
    GetLineNumbers fs fileName strFind [] = some (true, [2]) := by
  have h1 := stripComments_leading_comment body post false hfirst hpost.2.1 hpost.2.2
  have h2 := stripComments_clean line2 false hline2.2.1 hline2.2.2
  have hn1 : find post strFind = none := (find_eq_none_iff _ _).mpr hpost.1
  have hn2 : (find line2 strFind).isSome = true := (find_isSome_iff _ _).mpr hline2.1
  have hL : scanNew strFind [commentOpen ++ body ++ commentClose ++ post, line2] 0 false
      = [2] := by
    simp only [scanNew, h1, h2, hn1, hn2, Option.isSome_none, Bool.not_false, Bool.true_and,
      Bool.false_eq_true, if_false, if_true]
  rw [GetLineNumbers_eq, hfile, hL]
  rfl

/-- C14, witness: first line `<!-- <Gain> --> ...`, second line ` <Gain>`, needle `<Gain>`. -/
theorem C14_commented_then_plain_witness :
    GetLineNumbers (oneFile "<!-- <Gain> --> ...\n <Gain>") "camera.xml".toList
      "<Gain>".toList [] = some (true, [2]) :=
  C14_commented_then_plain (oneFile "<!-- <Gain> --> ...\n <Gain>") "camera.xml".toList
    "<Gain>".toList " <Gain> ".toList " ...".toList " <Gain>".toList
    (by decide) (by decide) (by decide) (by decide)

/-- C15: in a file whose lines before line `i` hold no comment marker, whose line `i` holds
`<!--` and no `-->`, whose lines strictly between `i` and `j` hold no comment marker and whose
line `j` holds one `-->` and no `<!--`, `GetLineNumbers` reports none of the lines `i` to
`j - 1` and reports line `j` exactly when the text after its `-->` contains the needle. Here
`i` is the number of lines before line `i` plus one, and `j` is `i` plus the number of lines
between plus one. -/
theorem C15_multi_line_comment (fs : FileSystem) (fileName strFind : Str)
    (before between after : List Str) (lineI pre post : Str)
    (hfile : fileLines fs fileName
      = before ++ lineI :: between ++ (pre ++ commentClose ++ post) :: after)
    (hbefore : ∀ line ∈ before, ¬ commentOpen <:+: line ∧ ¬ commentClose <:+: line)
    (hI : commentOpen <:+: lineI ∧ ¬ commentClose <:+: lineI)
    (hbetween : ∀ line ∈ between, ¬ commentOpen <:+: line ∧ ¬ commentClose <:+: line)
    (hJfirst : find (pre ++ commentClose ++ post) commentClose = some pre.length)
    (hJone : ¬ commentClose <:+: post)
    (hJopen : ¬ commentOpen <:+: pre ++ commentClose ++ post) :
    ∃ found L, GetLineNumbers fs fileName strFind [] = some (found, L) ∧
      (∀ n ∈ L, ¬ (before.length + 1 ≤ n ∧ n ≤ before.length + 1 + between.length)) ∧
      (before.length + 1 + between.length + 1 ∈ L ↔ strFind <:+: post) := by
  refine ⟨_, _, GetLineNumbers_eq fs fileName strFind, ?_⟩
  obtain ⟨sI, cI, hsI, _⟩ := stripComments_total lineI false
  have hcI : cI = true := stripComments_flag_open lineI false sI cI hI.1 hI.2 hsI
  subst hcI
  have hsJ := stripComments_closing pre post true hJfirst hJopen hJone
  have hshape : before ++ lineI :: between ++ (pre ++ commentClose ++ post) :: after
      = before ++ (lineI :: (between ++ (pre ++ commentClose ++ post) :: after)) := by simp
  have hL : scanNew strFind (fileLines fs fileName) 0 false
      = scanNew strFind before 0 false ++
          ((if (find post strFind).isSome then [before.length + 1 + between.length + 1] else [])
            ++ scanNew strFind after (before.length + 1 + between.length + 1) false) := by
    rw [hfile, hshape, scanNew_append strFind before _ 0 false false
      (commentAfter_clean before false hbefore)]
    congr 1
    simp only [scanNew, hsI, Bool.not_true, Bool.false_and, Bool.false_eq_true, if_false,
      Nat.zero_add]
    rw [scanNew_append strFind between _ _ true true (commentAfter_clean between true hbetween),
      scanNew_clean_inside strFind between _ hbetween, List.nil_append]
    simp only [scanNew, hsJ, Bool.not_false, Bool.true_and]
    split <;> rfl
  rw [hL]
  constructor
  · intro n hn
    rcases List.mem_append.mp hn with hn | hn
    · have := scanNew_bounds strFind before 0 false n hn
      omega
    · rcases List.mem_append.mp hn with hn | hn
      · split at hn
        · simp only [List.mem_singleton] at hn
          omega
        · simp at hn
      · have := scanNew_bounds strFind after _ false n hn
        omega
  · constructor
    · intro hn
      rcases List.mem_append.mp hn with hn | hn
      · have := scanNew_bounds strFind before 0 false _ hn
        omega
      · rcases List.mem_append.mp hn with hn | hn
        · by_cases hf : (find post strFind).isSome = true
          · exact (find_isSome_iff _ _).mp hf
          · rw [if_neg hf] at hn
            simp at hn
        · have := scanNew_bounds strFind after _ false _ hn
          omega
    · intro hin
      rw [if_pos ((find_isSome_iff _ _).mpr hin)]
      simp

/-- C15, witness: `i = 3`, `j = 6`, the needle `Gain` standing on line 3 before the open
marker, on lines 4 and 5, and on line 6 before and after the close marker: only line 6 is
reported. -/
theorem C15_multi_line_comment_witness :
    GetLineNumbers (oneFile "<r>\n<a/>\nGain <!-- c\nGain\nGain\nGain --> Gain\n</r>\n")
        "camera.xml".toList "Gain".toList [] = some (true, [6]) ∧
    ∃ found L,
      GetLineNumbers (oneFile "<r>\n<a/>\nGain <!-- c\nGain\nGain\nGain --> Gain\n</r>\n")
        "camera.xml".toList "Gain".toList [] = some (found, L) ∧
      (∀ n ∈ L, ¬ (2 + 1 ≤ n ∧ n ≤ 2 + 1 + 2)) ∧
      (2 + 1 + 2 + 1 ∈ L ↔ "Gain".toList <:+: " Gain".toList) :=
  ⟨by decide,
    C15_multi_line_comment
      (oneFile "<r>\n<a/>\nGain <!-- c\nGain\nGain\nGain --> Gain\n</r>\n") "camera.xml".toList
      "Gain".toList ["<r>".toList, "<a/>".toList] ["Gain".toList, "Gain".toList]
      ["</r>".toList] "Gain <!-- c".toList "Gain ".toList " Gain".toList
      (by decide) (by decide) (by decide) (by decide) (by decide) (by decide) (by decide)⟩

/-! ## The XML comment rule on a line -/

theorem xmlScan_inside_no_close : ∀ (s : Str) (skip : Nat), ¬ commentClose <:+: s →
    xmlScan s true skip = true := by
  intro s
  induction s with
  | nil => intro skip _; rfl
  | cons c cs ih =>
    intro skip h
    have hcs : ¬ commentClose <:+: cs := fun hi => h (List.infix_cons hi)
    cases skip with
    | succ k => simp only [xmlScan]; exact ih k hcs
    | zero =>
      have hp : commentClose.isPrefixOf (c :: cs) = false := by
        rw [Bool.eq_false_iff]
        intro hpre
        exact h (List.isPrefixOf_iff_prefix.mp hpre).isInfix
      simp only [xmlScan, hp, Bool.false_eq_true, if_false]
      exact ih 0 hcs

theorem xmlScan_outside_no_open : ∀ (s : Str) (skip : Nat), ¬ commentOpen <:+: s →
    xmlScan s false skip = false := by
  intro s
  induction s with
  | nil => intro skip _; rfl
  | cons c cs ih =>
    intro skip h
    have hcs : ¬ commentOpen <:+: cs := fun hi => h (List.infix_cons hi)
    cases skip with
    | succ k => simp only [xmlScan]; exact ih k hcs
    | zero =>
      have hp : commentOpen.isPrefixOf (c :: cs) = false := by
        rw [Bool.eq_false_iff]
        intro hpre
        exact h (List.isPrefixOf_iff_prefix.mp hpre).isInfix
      simp only [xmlScan, hp, Bool.false_eq_true, if_false]
      exact ih 0 hcs

theorem xmlScan_opens : ∀ (s : Str), commentOpen <:+: s → ¬ commentClose <:+: s →
    xmlScan s false 0 = true := by
  intro s
  induction s with
  | nil => intro h _; exact absurd (List.infix_nil.mp h) (by decide)
  | cons c cs ih =>
    intro ho hc
    have hcs : ¬ commentClose <:+: cs := fun hi => hc (List.infix_cons hi)
    by_cases hp : commentOpen.isPrefixOf (c :: cs) = true
    · simp only [xmlScan, hp, if_true]
      exact xmlScan_inside_no_close cs 3 hcs
    · simp only [xmlScan, hp, if_false]
      rcases List.infix_cons_iff.mp ho with hpre | hin
      · exact absurd (List.isPrefixOf_iff_prefix.mpr hpre) hp
      · exact ih hin hcs

theorem xmlScan_closes : ∀ (s : Str), ¬ commentOpen <:+: s → commentClose <:+: s →
    xmlScan s true 0 = false := by
  intro s
  induction s with
  | nil => intro _ h; exact absurd (List.infix_nil.mp h) (by decide)
  | cons c cs ih =>
    intro ho hc
    have hcs : ¬ commentOpen <:+: cs := fun hi => ho (List.infix_cons hi)
    by_cases hp : commentClose.isPrefixOf (c :: cs) = true
    · simp only [xmlScan, hp, if_true]
      exact xmlScan_outside_no_open cs 2 hcs
    · simp only [xmlScan, hp, if_false]
      rcases List.infix_cons_iff.mp hc with hpre | hin
      · exact absurd (List.isPrefixOf_iff_prefix.mpr hpre) hp
      · exact ih hcs hin

/-- On a line that does not hold both markers the flag the loop leaves is the state the XML
comment rule reaches at the end of the line. -/
theorem stripComments_flag_xml (line : Str) (c : Bool) (s : Str) (c1 : Bool)
    (hboth : ¬ (commentOpen <:+: line ∧ commentClose <:+: line))
    (h : stripComments line c = some (s, c1)) : c1 = xmlScan line c 0 := by
  by_cases ho : commentOpen <:+: line
  · have hc : ¬ commentClose <:+: line := fun hc => hboth ⟨ho, hc⟩
    rw [stripComments_flag_open line c s c1 ho hc h]
    cases c with
    | true => exact (xmlScan_inside_no_close line 0 hc).symm
    | false => exact (xmlScan_opens line ho hc).symm
  · by_cases hc : commentClose <:+: line
    · rw [stripComments_flag_close line c s c1 ho hc h]
      cases c with
      | true => exact (xmlScan_closes line ho hc).symm
      | false => exact (xmlScan_outside_no_open line 0 ho).symm
    · rw [stripComments_clean line c ho hc] at h
      simp only [Option.some.injEq, Prod.mk.injEq] at h
      rw [← h.2]
      cases c with
      | true => exact (xmlScan_inside_no_close line 0 hc).symm
      | false => exact (xmlScan_outside_no_open line 0 ho).symm

theorem commentAfter_xml : ∀ (ls : List Str) (c : Bool),
    (∀ line ∈ ls, ¬ (commentOpen <:+: line ∧ commentClose <:+: line)) →
    commentAfter ls c = some (xmlAfterLines ls c) := by
  intro ls
  induction ls with
  | nil => intro c _; rfl
  | cons l rest ih =>
    intro c h
    obtain ⟨s, c1, hs, _⟩ := stripComments_total l c
    have hc1 := stripComments_flag_xml l c s c1 (h l (by simp)) hs
    simp only [commentAfter, hs, xmlAfterLines]
    rw [hc1]
    exact ih _ (fun line hline => h line (by simp [hline]))

/-! ## The driver -/

theorem reportSwissKnifes_eq (fs : FileSystem) (strFile : Str) : ∀ (errs : List Str)
    (r : RunResult),
    reportSwissKnifes fs strFile errs r
      = (⟨r.cout,
          r.outStream ++ (errs.map (fun e => swissKnifeLine strFile
            ((FindSwissKnifeErrorLineStr fs strFile e).getD "1".toList) e)).flatten,
          r.toFile, if errs = [] then r.retError else 2⟩, false) := by
  intro errs
  induction errs with
  | nil => intro r; simp [reportSwissKnifes]
  | cons e es ih =>
    intro r
    obtain ⟨s, hs⟩ := FindSwissKnifeErrorLineStr_total fs strFile e
    simp only [reportSwissKnifes, hs, ih, setRet, emit, List.map_cons, List.flatten_cons,
      Option.getD_some, List.append_assoc]
    simp

theorem tryBlock_loaded (fs : FileSystem) (strFile : Str) (r : RunResult) (errs : List Str) :
    tryBlock fs strFile r (EngineOutcome.loaded errs)
      = some ⟨r.cout,
          r.outStream ++ (errs.map (fun e => swissKnifeLine strFile
            ((FindSwissKnifeErrorLineStr fs strFile e).getD "1".toList) e)).flatten,
          r.toFile, if errs = [] then r.retError else 2⟩ := by
  simp only [tryBlock, reportSwissKnifes_eq]

theorem tryBlock_generic (fs : FileSystem) (strFile : Str) (r : RunResult) (d w s : Str)
    (hs : FindXmlErrorLineStr fs d strFile = some s) :
    tryBlock fs strFile r (EngineOutcome.genericException d w)
      = some ⟨r.cout, r.outStream ++ genericLine strFile s w, r.toFile, 3⟩ := by
  simp only [tryBlock, hs, setRet, emit]

theorem tryBlock_other (fs : FileSystem) (strFile : Str) (r : RunResult) :
    tryBlock fs strFile r EngineOutcome.otherException
      = some ⟨r.cout, r.outStream ++ unknownLine strFile, r.toFile, 4⟩ := by
  simp only [tryBlock, setRet, emit]

/-- With a file argument `main` runs the `try` statement from a state with nothing written
to `outStream` and `retError = 0`, and adds the success line when `retError` is still 0. -/
theorem main_with_file (ver : Version) (fs : FileSystem) (canOpenOut : Str → Bool)
    (engine : Str → EngineOutcome) (prog strFile : Str) (more : List Str) :
    ∃ r0 : RunResult, r0.outStream = [] ∧ r0.retError = 0 ∧
      main ver fs canOpenOut engine (prog :: strFile :: more) =
        match tryBlock fs strFile r0 (engine strFile) with
        | none => none
        | some r1 =>
          if r1.retError = 0 then some (emit r1 (successLine ver strFile)) else some r1 := by
  cases more with
  | nil => exact ⟨⟨[], [], false, 0⟩, rfl, rfl, rfl⟩
  | cons strOutFile more1 =>
    by_cases hopen : canOpenOut strOutFile = true
    · exact ⟨⟨[], [], true, 0⟩, rfl, rfl, by simp only [main, hopen, if_true]⟩
    · have hfalse : canOpenOut strOutFile = false := by simpa using hopen
      exact ⟨⟨"WARNING: can not open output_file".toList ++ strOutFile
          ++ "cout will be used\n".toList, [], false, 0⟩, rfl, rfl,
        by simp only [main, hfalse, Bool.false_eq_true, if_false]⟩

/-- What `main` leaves, outcome by outcome of the engine. -/
theorem main_outcomes (ver : Version) (fs : FileSystem) (canOpenOut : Str → Bool)
    (engine : Str → EngineOutcome) (prog strFile : Str) (more : List Str) :
    ∃ r, main ver fs canOpenOut engine (prog :: strFile :: more) = some r ∧
      (∀ errs, engine strFile = EngineOutcome.loaded errs →
        r.retError = (if errs = [] then 0 else 2) ∧
        r.outStream = (errs.map (fun e => swissKnifeLine strFile
            ((FindSwissKnifeErrorLineStr fs strFile e).getD "1".toList) e)).flatten
          ++ (if errs = [] then successLine ver strFile else [])) ∧
      (∀ d w, engine strFile = EngineOutcome.genericException d w →
        r.retError = 3 ∧
        ∃ s, FindXmlErrorLineStr fs d strFile = some s ∧
          r.outStream = genericLine strFile s w) ∧
      (engine strFile = EngineOutcome.otherException →
        r.retError = 4 ∧ r.outStream = unknownLine strFile) := by
  obtain ⟨r0, hout, hret, hmain⟩ := main_with_file ver fs canOpenOut engine prog strFile more
  rw [hmain]
  cases he : engine strFile with
  | loaded errs =>
    rw [tryBlock_loaded]
    cases errs with
    | nil =>
      refine ⟨_, by simp only [hret, if_true]; rfl, ?_, ?_, ?_⟩
      · intro errs herr
        cases herr
        simp [emit, hout]
      · intro d w h; cases h
      · intro h; cases h
    | cons e es =>
      refine ⟨_, by simp only [List.cons_ne_nil, if_false]; rfl, ?_, ?_, ?_⟩
      · intro errs herr
        cases herr
        simp [hout]
      · intro d w h; cases h
      · intro h; cases h
  | genericException d w =>
    obtain ⟨s, hs⟩ := FindXmlErrorLineStr_total fs d strFile
    rw [tryBlock_generic fs strFile r0 d w s hs]
    refine ⟨⟨r0.cout, r0.outStream ++ genericLine strFile s w, r0.toFile, 3⟩, by simp,
      ?_, ?_, ?_⟩
    · intro errs h; cases h
    · intro d1 w1 h
      cases h
      exact ⟨rfl, s, hs, by simp [hout]⟩
    · intro h; cases h
  | otherException =>
    rw [tryBlock_other]
    refine ⟨⟨r0.cout, r0.outStream ++ unknownLine strFile, r0.toFile, 4⟩, by simp, ?_, ?_, ?_⟩
    · intro errs h; cases h
    · intro d w h; cases h
    · intro _
      exact ⟨rfl, by simp [hout]⟩

/-- C16: on a run with a file argument `main` returns, and its exit code is 0 exactly when
the engine loads the file with no expression error, 2 exactly when it loads the file with
one or more expression errors, 3 exactly when it throws a `GenericException`, and 4 exactly
when it throws anything else; a run with fewer than two arguments returns 1. -/
theorem C16_exit_codes (ver : Version) (fs : FileSystem) (canOpenOut : Str → Bool)
    (engine : Str → EngineOutcome) :
    (∀ (prog strFile : Str) (more : List Str),
      ∃ r, main ver fs canOpenOut engine (prog :: strFile :: more) = some r ∧
        (r.retError = 0 ↔ engine strFile = EngineOutcome.loaded []) ∧
        (r.retError = 2 ↔ ∃ e es, engine strFile = EngineOutcome.loaded (e :: es)) ∧
        (r.retError = 3 ↔ ∃ d w, engine strFile = EngineOutcome.genericException d w) ∧
        (r.retError = 4 ↔ engine strFile = EngineOutcome.otherException)) ∧
    (∀ argc : List Str, argc.length < 2 →
      ∃ r, main ver fs canOpenOut engine argc = some r ∧ r.retError = 1) := by
  constructor
  · intro prog strFile more
    obtain ⟨r, hr, hl, hg, ho⟩ := main_outcomes ver fs canOpenOut engine prog strFile more
    refine ⟨r, hr, ?_⟩
    cases he : engine strFile with
    | loaded errs =>
      have h := (hl errs he).1
      cases errs with
      | nil => simp [h]
      | cons e es => simp [h]
    | genericException d w =>
      have h := (hg d w he).1
      simp [h]
    | otherException =>
      have h := (ho he).1
      simp [h]
  · intro argc hlen
    cases argc with
    | nil => exact ⟨_, rfl, rfl⟩
    | cons a rest =>
      cases rest with
      | nil => exact ⟨_, rfl, rfl⟩
      | cons b rest1 =>
        simp only [List.length_cons] at hlen
        omega

/-- C16, witness: one run for each of the five exit codes. -/
theorem C16_exit_codes_witness :
    (∃ r, main ⟨"3".toList, "1".toList, "0".toList, "0".toList⟩ (oneFile gainOnLine10)
        (fun _ => true) (fun _ => EngineOutcome.loaded []) ["GcXmlValidator.exe".toList]
        = some r ∧ r.retError = 1) ∧
    (main ⟨"3".toList, "1".toList, "0".toList, "0".toList⟩ (oneFile gainOnLine10)
        (fun _ => true) (fun _ => EngineOutcome.loaded [])
        ["GcXmlValidator.exe".toList, "camera.xml".toList]).map RunResult.retError = some 0 ∧
    (main ⟨"3".toList, "1".toList, "0".toList, "0".toList⟩ (oneFile gainOnLine10)
        (fun _ => true) (fun _ => EngineOutcome.loaded ["bad formula".toList])
        ["GcXmlValidator.exe".toList, "camera.xml".toList]).map RunResult.retError = some 2 ∧
    (main ⟨"3".toList, "1".toList, "0".toList, "0".toList⟩ (oneFile gainOnLine10)
        (fun _ => true)
        (fun _ => EngineOutcome.genericException "Node 'Gain' not found".toList "what".toList)
        ["GcXmlValidator.exe".toList, "camera.xml".toList]).map RunResult.retError = some 3 ∧
    (main ⟨"3".toList, "1".toList, "0".toList, "0".toList⟩ (oneFile gainOnLine10)
        (fun _ => true) (fun _ => EngineOutcome.otherException)
        ["GcXmlValidator.exe".toList, "camera.xml".toList]).map RunResult.retError = some 4 :=
  ⟨(C16_exit_codes ⟨"3".toList, "1".toList, "0".toList, "0".toList⟩ (oneFile gainOnLine10)
      (fun _ => true) (fun _ => EngineOutcome.loaded [])).2 ["GcXmlValidator.exe".toList]
      (by decide),
    by decide, by decide, by decide, by decide⟩

/-- C17, counterexample: a run with one expression error writes the line of that error and
nothing else: no summary line follows it. -/
theorem C17_counterexample :
    main ⟨"3".toList, "1".toList, "0".toList, "0".toList⟩ (oneFile gainOnLine10)
        (fun _ => true) (fun _ => EngineOutcome.loaded ["bad formula".toList])
        ["GcXmlValidator.exe".toList, "camera.xml".toList]
      = some ⟨[], "camera.xml(1): error ParseSwissKnifes: bad formula\n".toList, false, 2⟩ ∧
    ("camera.xml(1): error ParseSwissKnifes: bad formula\n".toList).count '\n' = 1 := by
  decide

/-- C17, amended: on every run with a file argument the text written to the output stream
is one line per reported error (the lines of the `n` expression errors in their order, or the
one line of the `GenericException`, or the one line of the unknown failure), followed by the
success line exactly when the engine loaded the file without an expression error; a run that
reports an error writes no summary line. -/
theorem C17_output_lines (ver : Version) (fs : FileSystem) (canOpenOut : Str → Bool)
    (engine : Str → EngineOutcome) (prog strFile : Str) (more : List Str) :
    ∃ r, main ver fs canOpenOut engine (prog :: strFile :: more) = some r ∧
      (∀ errs, engine strFile = EngineOutcome.loaded errs →
        r.outStream = (errs.map (fun e => swissKnifeLine strFile
            ((FindSwissKnifeErrorLineStr fs strFile e).getD "1".toList) e)).flatten
          ++ (if errs = [] then successLine ver strFile else [])) ∧
      (∀ d w, engine strFile = EngineOutcome.genericException d w →
        ∃ s, FindXmlErrorLineStr fs d strFile = some s ∧
          r.outStream = genericLine strFile s w) ∧
      (engine strFile = EngineOutcome.otherException → r.outStream = unknownLine strFile) := by
  obtain ⟨r, hr, hl, hg, ho⟩ := main_outcomes ver fs canOpenOut engine prog strFile more
  exact ⟨r, hr, fun errs he => (hl errs he).2, fun d w he => (hg d w he).2,
    fun he => (ho he).2⟩

/-- C18, the code at a failing input: the line `ab<!--c-->defgh<Gain>` is `ab`, a comment
and `defgh<Gain>`, with no further marker and its first `-->` after the body `c`; stripping
leaves `abfgh<Gain>` and not `abdefgh<Gain>` (the erase at line 321 gets the end position
`rem2 + 3` as its character count and deletes `rem1 = 2` characters too many), so the needle
`defgh`, which `pre ++ post` contains, is not reported. -/
theorem C18_erase_count :
    "ab<!--c-->defgh<Gain>".toList
      = "ab".toList ++ commentOpen ++ "c".toList ++ commentClose ++ "defgh<Gain>".toList ∧
    find "ab<!--c-->defgh<Gain>".toList commentClose
      = some ("ab".toList.length + commentOpen.length + "c".toList.length) ∧
    stripComments "ab<!--c-->defgh<Gain>".toList false = some ("abfgh<Gain>".toList, false) ∧
    "defgh".toList <:+: "ab".toList ++ "defgh<Gain>".toList ∧
    GetLineNumbers (oneFile "ab<!--c-->defgh<Gain>\n") "camera.xml".toList "defgh".toList []
      = some (false, []) := by
  decide

theorem stripLoop_total_third : ∀ (fuel : Nat) (line : Str) (c : Bool),
    line.length ≤ 3 * fuel → ∃ r, stripLoop fuel line c = some r := by
  intro fuel
  induction fuel with
  | zero =>
    intro line c hlen
    have hnil : line = [] := List.length_eq_zero.mp (Nat.le_zero.mp hlen)
    subst hnil
    exact ⟨_, stripLoop_of_clean 0 [] c rfl rfl⟩
  | succ fuel ih =>
    intro line c hlen
    by_cases h : find line commentOpen = none ∧ find line commentClose = none
    · exact ⟨_, stripLoop_of_clean _ line c h.1 h.2⟩
    · obtain ⟨s, c1, hp, hs⟩ := stripPass_shorter line c h
      obtain ⟨r, hr⟩ := ih s c1 (by omega)
      exact ⟨r, by rw [stripLoop_succ fuel line c h, hp]; exact hr⟩

theorem stripLoop_third_eq (fuel : Nat) (line : Str) (c : Bool)
    (hlen : line.length ≤ 3 * fuel) : stripLoop fuel line c = stripComments line c := by
  obtain ⟨r, hr⟩ := stripLoop_total_third fuel line c hlen
  obtain ⟨s, c1, hs, _⟩ := stripComments_total line c
  rcases Nat.le_total fuel line.length with hle | hle
  · have := stripLoop_mono_le fuel line.length line c r hle hr
    rw [hr]
    exact this.symm
  · exact stripLoop_enough fuel line c hle

/-- C19: for every line and every value of the flag, each pass of the comment-stripping loop
(run when a marker is in the line) shortens the line by at least three characters, and the
loop ends: every bound of at least a third of the line's length, the line's length among
them, is enough passes, the result does not depend on the bound, and the text left contains
neither `<!--` nor `-->`. -/
theorem C19_strip_loop_terminates (line : Str) (c : Bool) :
    (¬ (find line commentOpen = none ∧ find line commentClose = none) →
      ∃ s c1, stripPass line c (find line commentOpen) (find line commentClose) = some (s, c1) ∧
        s.length + 3 ≤ line.length) ∧
    ∃ s c1, (∀ fuel, line.length ≤ 3 * fuel → stripLoop fuel line c = some (s, c1)) ∧
      stripLoop line.length line c = some (s, c1) ∧
      ¬ commentOpen <:+: s ∧ ¬ commentClose <:+: s := by
  refine ⟨stripPass_shorter line c, ?_⟩
  obtain ⟨s, c1, hs, ho, hc⟩ := stripComments_total line c
  refine ⟨s, c1, ?_, hs, (find_eq_none_iff _ _).mp ho, (find_eq_none_iff _ _).mp hc⟩
  intro fuel hlen
  rw [stripLoop_third_eq fuel line c hlen]
  exact hs

/-- C19, witness: the line `a<!--b-->c<!--d` needs two passes; the first removes more than
three characters, and the loop ends with `a` and the flag set. -/
theorem C19_strip_loop_terminates_witness :
    (∃ s c1, stripPass "a<!--b-->c<!--d".toList false
        (find "a<!--b-->c<!--d".toList commentOpen) (find "a<!--b-->c<!--d".toList commentClose)
        = some (s, c1) ∧ s.length + 3 ≤ "a<!--b-->c<!--d".toList.length) ∧
    stripLoop 5 "a<!--b-->c<!--d".toList false = some ("a".toList, true) :=
  ⟨(C19_strip_loop_terminates "a<!--b-->c<!--d".toList false).1 (by decide), by decide⟩

/-! ## Claims C6 and C20 -/

set_option maxRecDepth 1000000

/-- A line reported for a needle is reported for every substring of the needle: the same
stripped text is searched. -/
theorem scanNew_needle_mono (strFind key : Str) (h : strFind <:+: key) :
    ∀ (ls : List Str) (i : Nat) (c : Bool) (n : Nat),
      n ∈ scanNew key ls i c → n ∈ scanNew strFind ls i c := by
  intro ls
  induction ls with
  | nil => intro i c n hn; simp [scanNew] at hn
  | cons l rest ih =>
    intro i c n hn
    obtain ⟨s, c1, hs, _⟩ := stripComments_total l c
    simp only [scanNew, hs] at hn ⊢
    by_cases hk : ((!c1) && (find s key).isSome) = true
    · have hN : ((!c1) && (find s strFind).isSome) = true := by
        simp only [Bool.and_eq_true] at hk ⊢
        exact ⟨hk.1, (find_isSome_iff _ _).mpr (h.trans ((find_isSome_iff _ _).mp hk.2))⟩
      rw [if_pos hk] at hn
      rw [if_pos hN]
      rcases List.mem_cons.mp hn with e | hm
      · exact List.mem_cons.mpr (Or.inl e)
      · exact List.mem_cons_of_mem _ (ih _ _ _ hm)
    · rw [if_neg hk] at hn
      have hm := ih _ _ _ hn
      split
      · exact List.mem_cons_of_mem _ hm
      · exact hm

/-- When `GetLineNumbers` finds nothing for a needle it finds nothing for any key that
contains the needle. -/
theorem GetLineNumbers_none_of_infix (fs : FileSystem) (fileName strFind key : Str)
    (h : strFind <:+: key)
    (hnone : GetLineNumbers fs fileName strFind [] = some (false, [])) :
    GetLineNumbers fs fileName key [] = some (false, []) := by
  rw [GetLineNumbers_eq] at hnone
  simp only [Option.some.injEq, Prod.mk.injEq] at hnone
  have hkey : scanNew key (fileLines fs fileName) 0 false = [] := by
    apply List.eq_nil_iff_forall_not_mem.mpr
    intro n hn
    have := scanNew_needle_mono strFind key h _ 0 false n hn
    rw [hnone.2] at this
    simp at this
  rw [GetLineNumbers_eq, hkey]
  rfl

theorem strRef2_no_quote : ∀ p ∈ strRef2, quoteChar ∉ p := by decide

/-- C6, amended: for every description of the shape symbolic-name phrase, `'N'`, any text,
`Error in property of type 'T': cannot convert 'P' to int64_t`, any text (no explicit-line
phrase, `N` free of single quotes) and every source file in which `GetLineNumbers` finds
nothing for `N`, the result is the default "1", whatever the file holds for the key `T>P`:
the quoted texts are taken from the start of the description, where `N` stands, and a key
that begins with `N`, such as `N>T`, is found no more than `N` itself. -/
theorem C6_name_not_found (fs : FileSystem) (fileName p N mid T P tail : Str)
    (hp : p ∈ strRef2) (hN : quoteChar ∉ N)
    (h1 : ∀ q ∈ strRef1, ¬ q <:+: p ++ quoteStr ++ N ++ quoteStr
      ++ (mid ++ propertyErrorDescription T P ++ tail))
    (hnone : GetLineNumbers fs fileName N [] = some (false, [])) :
    FindXmlErrorLineStr fs
        (p ++ quoteStr ++ N ++ quoteStr ++ (mid ++ propertyErrorDescription T P ++ tail))
        fileName = some "1".toList ∧
    ∀ X, GetLineNumbers fs fileName (N ++ ">".toList ++ X) [] = some (false, []) := by
  constructor
  · exact FindXml_symbolic fs fileName p N _ (false, []) (strRef2_no_quote p hp) hN h1
      ⟨p, hp, ⟨[], quoteStr ++ N ++ quoteStr
        ++ (mid ++ propertyErrorDescription T P ++ tail),
        by simp only [List.nil_append, List.append_assoc]⟩⟩ hnone
  · intro X
    exact GetLineNumbers_none_of_infix fs fileName N _
      ⟨[], ">".toList ++ X, by simp only [List.nil_append, List.append_assoc]⟩ hnone

/-- C6, witness: "Node 'Gain' not found. Error in property of type 'IntReg': cannot convert
'MyProp' to int64_t" on a file without `Gain` whose line 2 holds `IntReg>MyProp`. -/
theorem C6_name_not_found_witness :
    GetLineNumbers (oneFile "<r>\n<IntReg>MyProp</IntReg>\n</r>\n") "camera.xml".toList
        ("IntReg".toList ++ ">".toList ++ "MyProp".toList) [] = some (true, [2]) ∧
    FindXmlErrorLineStr (oneFile "<r>\n<IntReg>MyProp</IntReg>\n</r>\n")
        ("Node ".toList ++ quoteStr ++ "Gain".toList ++ quoteStr ++ (" not found. ".toList
          ++ propertyErrorDescription "IntReg".toList "MyProp".toList ++ "".toList))
        "camera.xml".toList = some "1".toList :=
  ⟨by decide,
    (C6_name_not_found (oneFile "<r>\n<IntReg>MyProp</IntReg>\n</r>\n") "camera.xml".toList
      "Node ".toList "Gain".toList " not found. ".toList "IntReg".toList "MyProp".toList
      "".toList (by decide) (by decide) (by decide) (by decide)).1⟩

/-- C20, the code at a failing input: a comment opens on line 1; line 2,
`end --> <a/> <!-- next`, closes it and opens another, which closes on line 4. By the XML
comment rule the end of line 2 lies inside the second comment. The loop finds `<!--` at 13
and `-->` at 4, erases 7 characters from 13 and clears the flag because the line holds a
`-->` (line 322), then erases up to the close marker and clears it again: after line 2 the
flag is clear, and line 3, inside the comment, is reported for the needle `Gain`. -/
theorem C20_close_then_open :
    fileLines (oneFile "<!-- first\nend --> <a/> <!-- next\n<Gain/>\n-->\n<Gain/>\n")
        "camera.xml".toList
      = ["<!-- first".toList, "end --> <a/> <!-- next".toList, "<Gain/>".toList,
          "-->".toList, "<Gain/>".toList] ∧
    find "end --> <a/> <!-- next".toList commentOpen = some 13 ∧
    find "end --> <a/> <!-- next".toList commentClose = some 4 ∧
    stripComments "end --> <a/> <!-- next".toList true = some (" <a/> xt".toList, false) ∧
    commentAfter ["<!-- first".toList, "end --> <a/> <!-- next".toList] false = some false ∧
    xmlAfterLines ["<!-- first".toList, "end --> <a/> <!-- next".toList] false = true ∧
    GetLineNumbers (oneFile "<!-- first\nend --> <a/> <!-- next\n<Gain/>\n-->\n<Gain/>\n")
        "camera.xml".toList "Gain".toList [] = some (true, [3, 5]) := by
  decide

end GcXmlValidator
